import Mathlib

/-!
# KDT index engine (`AnnService/src/Core/KDT/KDTIndex.cpp`)

A shallow embedding of the index engine of `KDTIndex.cpp` and theorems about it.
Vector ids (`SizeType`, a signed 32-bit integer in the source) are `Int`; sizes
that the source keeps non-negative by construction are `Nat`.  Distances are
values of an arbitrary type `D` carrying the comparisons `<` and `<=`; no order
law is assumed about them, so every statement holds for any distance kernel.
Loops that the source runs until a condition fails take a fuel argument and
return `none` when it runs out; the theorems show that enough fuel exists.

Collaborators whose code is not part of `KDTIndex.cpp` (the deleted set, the
sample store, the graph, the forest, the workspace, the result set, the
streams) are modelled from the specification; each such definition says so.
-/

set_option autoImplicit false
set_option linter.unusedSectionVars false

namespace SPTAG

/-! ## Collaborators -/

/-- Modelled from the spec: the `ErrorCode` enumeration (declared in a header that is not
part of the sources); the constructors are the codes listed in section 6 of the spec. -/
inductive ErrorCode where
  | Success
  | Fail
  | EmptyIndex
  | EmptyData
  | DimensionSizeMismatch
  | MemoryOverFlow
  | LackOfInputs
  | FailedParseValue
  | VectorNotFound
  | ExternalAbort
deriving DecidableEq, Repr

/-- Modelled from the spec: the deleted set `COMMON::Labelset` (C2), "a bitset of length >= R".
`bits[i]` is the tombstone of id `i`; `capacity` bounds the length (`m_iDataCapacity`). -/
structure Labelset where
  bits : List Bool
  capacity : Nat
deriving DecidableEq, Repr

namespace Labelset

/-- Modelled from the spec: the length of the bitset. -/
def R (s : Labelset) : Int := (s.bits.length : Int)

/-- Modelled from the spec: `Contains(vid)`; an id without a bit is not contained. -/
def Contains (s : Labelset) (vid : Int) : Bool :=
  decide (0 ≤ vid) && s.bits.getD vid.toNat false

/-- Modelled from the spec: "`Insert(vid)` returns true iff the bit transitioned 0->1"; for
an id that never existed there is no bit to flip and the call reports `false`
("`VectorNotFound` if already deleted (or, equivalently, if it never existed)"). -/
def Insert (s : Labelset) (vid : Int) : Bool × Labelset :=
  if 0 ≤ vid ∧ vid < (s.bits.length : Int) ∧ s.Contains vid = false then
    (true, { s with bits := s.bits.set vid.toNat true })
  else (false, s)

/-- Modelled from the spec: `Count()`, the number of set bits. -/
def Count (s : Labelset) : Nat := s.bits.count true

/-- Modelled from the spec: `Initialize(n, blockSize, capacity)`, a fresh empty set of
length `n` (the block size is a layout detail and is not modelled). -/
def Initialize (n : Int) (capacity : Nat) : Labelset :=
  { bits := List.replicate n.toNat false, capacity := capacity }

/-- Modelled from the spec: `AddBatch(n)` "extend length under add-lock",
`Ok | MemoryOverflow`; the append fails when it would exceed the capacity. -/
def AddBatch (s : Labelset) (n : Int) : ErrorCode × Labelset :=
  if s.bits.length + n.toNat ≤ s.capacity then
    (ErrorCode.Success, { s with bits := s.bits ++ List.replicate n.toNat false })
  else (ErrorCode.MemoryOverFlow, s)

/-- Modelled from the spec: `SetR(r)` "truncate logical size on failure". -/
def SetR (s : Labelset) (r : Int) : Labelset :=
  { s with bits := s.bits.take r.toNat }

end Labelset

/-- Modelled from the spec: the sample store `COMMON::Dataset<T>` (C1) reduced to its
shape: `R` rows of `C` columns, at most `capacity` rows.  Row contents are not modelled;
the distance of a row to a query is supplied by the query (see `QueryResultSet`). -/
structure Dataset where
  R : Nat
  C : Int
  capacity : Nat
deriving DecidableEq, Repr

namespace Dataset

/-- Modelled from the spec: `Initialize(R, D, blockSize, capacity, data, copy)`. -/
def Initialize (rows : Int) (cols : Int) (capacity : Nat) : Dataset :=
  { R := rows.toNat, C := cols, capacity := capacity }

/-- Modelled from the spec: `AddBatch(rows, n) -> Ok | MemoryOverflow`. -/
def AddBatch (s : Dataset) (n : Int) : ErrorCode × Dataset :=
  if s.R + n.toNat ≤ s.capacity then (ErrorCode.Success, { s with R := s.R + n.toNat })
  else (ErrorCode.MemoryOverFlow, s)

/-- Modelled from the spec: `SetR(r)` "truncate logical size on failure". -/
def SetR (s : Dataset) (r : Int) : Dataset := { s with R := r.toNat }

end Dataset

/-- Modelled from the spec: the neighbourhood graph `COMMON::NeighborhoodGraph` (C4):
row `i` is the adjacency list of id `i`, `-1` terminates a short row. -/
structure NeighborhoodGraph where
  rows : List (List Int)
  m_iNeighborhoodSize : Nat
  capacity : Nat
  m_iMaxCheckForRefineGraph : Nat
  m_iCEF : Nat
  m_iAddCEF : Nat
deriving DecidableEq, Repr

namespace NeighborhoodGraph

/-- Modelled from the spec: number of adjacency rows. -/
def R (g : NeighborhoodGraph) : Nat := g.rows.length

/-- The row `m_pGraph[v]`, as far as the loops over `i < m_iNeighborhoodSize` read it. An id
without a row has no neighbours. -/
def row (g : NeighborhoodGraph) (v : Int) : List Int :=
  if 0 ≤ v then (g.rows.getD v.toNat []).take g.m_iNeighborhoodSize else []

/-- Modelled from the spec: "`AddBatch(n)` extends adjacency rows, initializing to -1". -/
def AddBatch (g : NeighborhoodGraph) (n : Int) : ErrorCode × NeighborhoodGraph :=
  if g.rows.length + n.toNat ≤ g.capacity then
    (ErrorCode.Success,
      { g with rows := g.rows ++ List.replicate n.toNat (List.replicate g.m_iNeighborhoodSize (-1)) })
  else (ErrorCode.MemoryOverFlow, g)

/-- Modelled from the spec: `SetR(r)`, truncation of the logical size. -/
def SetR (g : NeighborhoodGraph) (r : Int) : NeighborhoodGraph :=
  { g with rows := g.rows.take r.toNat }

end NeighborhoodGraph

/-- Modelled from the spec: the KD-forest `COMMON::KDTree` (C3) as one query sees it.
`leafOrder` lists the leaf ids in the order in which the descent of `SearchTrees` reaches
them for that query (all trees together, so an id may occur several times).  The spec says
that every visited leaf is marked visited but not whether a leaf that is already marked is
passed over; `m_bSkipVisited` selects the reading.  `sizePerTree` is the number of samples the trees
were built over. -/
structure KDTree where
  leafOrder : List Int
  m_bSkipVisited : Bool
  sizePerTree : Int
deriving DecidableEq, Repr

/-- One entry `(node, distance)` of the queue `m_NGQueue`. -/
structure NodeDistPair (D : Type) where
  node : Int
  distance : D

/-- One entry `(VID, Dist)` of a result list. -/
structure BasicResult (D : Type) where
  VID : Int
  Dist : D

/-- Removes from a list the first element that no later element beats; this is the pop of
a heap whose order is `better` (ties go to the earlier element). -/
def takeBest {α : Type} (better : α → α → Bool) : List α → Option (α × List α)
  | [] => none
  | x :: xs =>
    match takeBest better xs with
    | none => some (x, [])
    | some (y, rest) => if better y x then some (y, x :: rest) else some (x, xs)

/-- Modelled from the spec: the query result set `COMMON::QueryResultSet<T>`, "a bounded
min-distance top-k buffer".  `distTo v` is the value of
`m_fComputeDistance(p_query.GetQuantizedTarget(), m_pSamples[v], GetFeatureDim())`. -/
structure QueryResultSet (D : Type) where
  distTo : Int → D
  m_resultNum : Nat
  m_results : List (BasicResult D)

/-- Modelled from the spec: the per-thread scratch `COMMON::WorkSpace` (C5): the min-heap
`m_NGQueue`, the visited set, the counters and the bound `m_iMaxCheck`; `m_SPTQueue` is
the part of the forest descent that is still to come. -/
structure WorkSpace (D : Type) where
  m_NGQueue : List (NodeDistPair D)
  m_SPTQueue : List Int
  m_hashTable : List Int
  m_iNumberOfCheckedLeaves : Nat
  m_iNumberOfTreeCheckedLeaves : Nat
  m_iNumOfContinuousNoBetterPropagation : Nat
  m_iMaxCheck : Nat

section Distances

variable {D : Type} [LT D] [LE D] [DecidableRel (α := D) (· < ·)] [DecidableRel (α := D) (· ≤ ·)]

namespace QueryResultSet

/-- The ids held by the result list. -/
def ids (q : QueryResultSet D) : List Int := q.m_results.map (fun r => r.VID)

/-- Modelled from the spec: `worstDist()` "returns the current k-th smallest (or +inf if
under-full)"; `none` stands for +inf. -/
def worstDist (q : QueryResultSet D) : Option D :=
  if q.m_results.length < q.m_resultNum then none
  else (takeBest (fun a b => decide (b.Dist < a.Dist)) q.m_results).map (fun p => p.1.Dist)

/-- Modelled from the spec: "`AddPoint(vid, dist)` returns true iff the point entered the
top-k": an under-full buffer takes the point, a full one takes it in place of its worst
entry when the point is strictly closer. -/
def AddPoint (q : QueryResultSet D) (vid : Int) (d : D) : Bool × QueryResultSet D :=
  if q.m_results.length < q.m_resultNum then
    (true, { q with m_results := q.m_results ++ [{ VID := vid, Dist := d }] })
  else
    match takeBest (fun a b => decide (b.Dist < a.Dist)) q.m_results with
    | none => (false, q)
    | some (w, rest) =>
      if d < w.Dist then (true, { q with m_results := rest ++ [{ VID := vid, Dist := d }] })
      else (false, q)

/-- Modelled from the spec: "`SortResult()` finalizes ascending-by-distance order". -/
def SortResult (q : QueryResultSet D) : QueryResultSet D :=
  { q with m_results := q.m_results.insertionSort (fun a b => a.Dist ≤ b.Dist) }

end QueryResultSet

namespace WorkSpace

/-- Modelled from the spec: "`Reset(maxCheck, k)` clears the hash set and queue". -/
def Reset (maxCheck : Nat) : WorkSpace D :=
  { m_NGQueue := [], m_SPTQueue := [], m_hashTable := [],
    m_iNumberOfCheckedLeaves := 0, m_iNumberOfTreeCheckedLeaves := 0,
    m_iNumOfContinuousNoBetterPropagation := 0, m_iMaxCheck := maxCheck }

/-- Modelled from the spec: `CheckAndSet(n)` reports whether `n` was already visited and
marks it visited. -/
def CheckAndSet (ws : WorkSpace D) (v : Int) : Bool × WorkSpace D :=
  if v ∈ ws.m_hashTable then (true, ws)
  else (false, { ws with m_hashTable := v :: ws.m_hashTable })

/-- The ids waiting in `m_NGQueue`. -/
def queued (ws : WorkSpace D) : List Int := ws.m_NGQueue.map (fun p => p.node)

end WorkSpace

/-- Modelled from the spec: what `SearchTrees` does with the leaves it reaches, in the order
of the descent, "until `limit` leaves have been checked" (the count is `checkedLeaves`, to
which the re-seeding call adds its limit): each visited leaf id L "is marked visited in
`ws`, `dist(query, store[L], D)` is computed", "`(L, d)` is pushed into `ws.NGQueue`, and
`treeCheckedLeaves`/`checkedLeaves` are incremented."  The seeds are handed over through
`m_NGQueue` alone and the result list of the query is left as it is: `SearchTree`
(KDTIndex.cpp lines 193-210) reads the outcome of this call by popping `m_NGQueue`, and the
loop of `Search` calls `AddPoint` for every entry it pops (line 111), behind the test of the
deleted set in the deletion-aware variant.  With `skip` set, a leaf that was already marked
visited is passed over.  The pending part of the descent is left in `m_SPTQueue`. -/
def searchLeaves (skip : Bool) (limit : Nat) :
    List Int → QueryResultSet D → WorkSpace D → QueryResultSet D × WorkSpace D
  | [], q, ws => (q, { ws with m_SPTQueue := [] })
  | L :: rest, q, ws =>
    if ws.m_iNumberOfCheckedLeaves < limit then
      if skip && (ws.CheckAndSet L).1 then searchLeaves skip limit rest q (ws.CheckAndSet L).2
      else
        searchLeaves skip limit rest q
          { (ws.CheckAndSet L).2 with
            m_NGQueue := (ws.CheckAndSet L).2.m_NGQueue ++ [{ node := L, distance := q.distTo L }],
            m_iNumberOfTreeCheckedLeaves := ws.m_iNumberOfTreeCheckedLeaves + 1,
            m_iNumberOfCheckedLeaves := ws.m_iNumberOfCheckedLeaves + 1 }
    else (q, { ws with m_SPTQueue := L :: rest })

namespace KDTree

/-- Modelled from the spec: `InitSearchTrees` puts every tree's root on the auxiliary list,
so that the whole descent is still to come. -/
def InitSearchTrees (t : KDTree) (ws : WorkSpace D) : WorkSpace D :=
  { ws with m_SPTQueue := t.leafOrder }

/-- Modelled from the spec: `SearchTrees(store, dist, query, ws, limit)`. -/
def SearchTrees (t : KDTree) (q : QueryResultSet D) (ws : WorkSpace D) (limit : Nat) :
    QueryResultSet D × WorkSpace D :=
  searchLeaves t.m_bSkipVisited limit ws.m_SPTQueue q ws

end KDTree

end Distances

/-! ## The engine -/

/-- Modelled from the spec: the metadata sideband, reduced to its number of records. -/
structure MetadataSet where
  count : Nat
deriving DecidableEq, Repr

/-- The state of `KDT::Index<T>`, as far as `KDTIndex.cpp` reads and writes it.  The
workspace pool is present (`some`) once it has been constructed; its content is the triple
it was initialised with. -/
structure Index where
  m_pSamples : Dataset
  m_pTrees : KDTree
  m_pGraph : NeighborhoodGraph
  m_deletedID : Labelset
  m_pMetadata : Option MetadataSet
  m_bHasMetaMapping : Bool
  m_bReady : Bool
  m_workSpacePool : Option (Nat × Nat × Nat)
  m_threadPoolJobs : Nat
  m_iDataCapacity : Nat
  m_iNumberOfThreads : Nat
  m_iMaxCheck : Nat
  m_iHashTableExp : Nat
  m_iNumberOfInitialDynamicPivots : Nat
  m_iNumberOfOtherDynamicPivots : Nat
  m_iThresholdOfNumberOfContinuousNoBetterPropagation : Nat
  m_addCountForRebuild : Int
deriving DecidableEq, Repr

namespace Index

/-- The source's `GetNumSamples()`. -/
def GetNumSamples (idx : Index) : Int := (idx.m_pSamples.R : Int)

/-- The source's `GetFeatureDim()`. -/
def GetFeatureDim (idx : Index) : Int := idx.m_pSamples.C

end Index

section Search

variable {D : Type} [LT D] [LE D] [DecidableRel (α := D) (· < ·)] [DecidableRel (α := D) (· ≤ ·)]

/-- The value of `max(p_query.worstDist(), gnode.distance)`, that is
`(a > b) ? a : b`; `none` is +inf. -/
def upperBoundOf (worst : Option D) (d : D) : Option D :=
  match worst with
  | none => none
  | some w => if d < w then some w else some d

/-- The test `distance2leaf <= upperBound`. -/
def withinBound (d : D) (upperBound : Option D) : Bool :=
  match upperBound with
  | none => true
  | some u => decide (d ≤ u)

/-- The test `gnode.distance > p_query.worstDist()`. -/
def beyondWorst (d : D) (worst : Option D) : Bool :=
  match worst with
  | none => false
  | some w => decide (w < d)

/-- The neighbour loop of the `Search` body (KDTIndex.cpp lines 117-125) over the entries
`node[0], node[1], ...` of one adjacency row, with the flag `bLocalOpt`. -/
def expandNeighbors (distTo : Int → D) (upperBound : Option D) :
    List Int → WorkSpace D → Bool → WorkSpace D × Bool
  | [], ws, bLocalOpt => (ws, bLocalOpt)
  | nn_index :: rest, ws, bLocalOpt =>
    if nn_index < 0 then (ws, bLocalOpt)
    else if (ws.CheckAndSet nn_index).1 then
      expandNeighbors distTo upperBound rest (ws.CheckAndSet nn_index).2 bLocalOpt
    else
      expandNeighbors distTo upperBound rest
        { (ws.CheckAndSet nn_index).2 with
          m_iNumberOfCheckedLeaves := ws.m_iNumberOfCheckedLeaves + 1,
          m_NGQueue := (ws.CheckAndSet nn_index).2.m_NGQueue ++
            [{ node := nn_index, distance := distTo nn_index }] }
        (if withinBound (distTo nn_index) upperBound then false else bLocalOpt)

/-- The counter update of lines 126-127. -/
def notePropagation (ws : WorkSpace D) (bLocalOpt : Bool) : WorkSpace D :=
  { ws with m_iNumOfContinuousNoBetterPropagation :=
      if bLocalOpt then ws.m_iNumOfContinuousNoBetterPropagation + 1 else 0 }

/-- The statement `CheckDeleted { if (!p_query.AddPoint(gnode.node, gnode.distance) && ...) }`
of lines 110-114, as far as the result set goes: the answer of `AddPoint` and the query after
it.  `CheckDeleted` is `if (!m_deletedID.Contains(gnode.node))` when `checkDeleted` is set and
the empty statement otherwise; for a tombstoned id nothing is added and the `return` of
line 112 is out of reach, which the answer `true` stands for. -/
def addPopped (idx : Index) (checkDeleted : Bool) (gnode : NodeDistPair D)
    (q : QueryResultSet D) : Bool × QueryResultSet D :=
  if checkDeleted && idx.m_deletedID.Contains gnode.node then (true, q)
  else q.AddPoint gnode.node gnode.distance

/-- Lines 115-127: the bound `upperBound`, the neighbour loop over the row of `gnode.node`
and the update of the counter of passes without a better neighbour. -/
def propagate (idx : Index) (gnode : NodeDistPair D) (q : QueryResultSet D)
    (ws : WorkSpace D) : WorkSpace D :=
  notePropagation
    (expandNeighbors q.distTo (upperBoundOf q.worstDist gnode.distance)
      (idx.m_pGraph.row gnode.node) ws true).1
    (expandNeighbors q.distTo (upperBoundOf q.worstDist gnode.distance)
      (idx.m_pGraph.row gnode.node) ws true).2

/-- One pass through the body of the `while` loop of `Search` (lines 105-134) for the popped
entry `gnode`, on the workspace from which `gnode` has been removed.  The flag of the
result tells whether the loop goes on (`true`) or control leaves it, through the `return`
of line 112 or the `break` of line 132 (`false`).  Prefetches have no effect and are left
out. -/
def searchStep (idx : Index) (checkDeleted : Bool) (gnode : NodeDistPair D)
    (q : QueryResultSet D) (ws : WorkSpace D) : Bool × QueryResultSet D × WorkSpace D :=
  if !(addPopped idx checkDeleted gnode q).1 &&
      decide (ws.m_iNumberOfCheckedLeaves > ws.m_iMaxCheck) then
    (false, (addPopped idx checkDeleted gnode q).2, ws)
  else if (propagate idx gnode (addPopped idx checkDeleted gnode q).2 ws).m_iNumOfContinuousNoBetterPropagation >
      idx.m_iThresholdOfNumberOfContinuousNoBetterPropagation then
    if (propagate idx gnode (addPopped idx checkDeleted gnode q).2 ws).m_iNumberOfTreeCheckedLeaves
        ≤ (propagate idx gnode (addPopped idx checkDeleted gnode q).2 ws).m_iNumberOfCheckedLeaves / 10 then
      (true, idx.m_pTrees.SearchTrees (addPopped idx checkDeleted gnode q).2
        (propagate idx gnode (addPopped idx checkDeleted gnode q).2 ws)
        (idx.m_iNumberOfOtherDynamicPivots +
          (propagate idx gnode (addPopped idx checkDeleted gnode q).2 ws).m_iNumberOfCheckedLeaves))
    else if beyondWorst gnode.distance (addPopped idx checkDeleted gnode q).2.worstDist then
      (false, (addPopped idx checkDeleted gnode q).2,
        propagate idx gnode (addPopped idx checkDeleted gnode q).2 ws)
    else
      (true, (addPopped idx checkDeleted gnode q).2,
        propagate idx gnode (addPopped idx checkDeleted gnode q).2 ws)
  else
    (true, (addPopped idx checkDeleted gnode q).2,
      propagate idx gnode (addPopped idx checkDeleted gnode q).2 ws)

/-- The `while (!p_space.m_NGQueue.empty())` loop of the `Search` body (lines 104-135).
The result is the query and workspace with which control reaches a
`p_query.SortResult()`; `none` means the fuel ran out. -/
def searchLoop (idx : Index) (checkDeleted : Bool) :
    Nat → QueryResultSet D → WorkSpace D → Option (QueryResultSet D × WorkSpace D)
  | 0, q, ws =>
    match takeBest (fun a b => decide (a.distance < b.distance)) ws.m_NGQueue with
    | none => some (q, ws)
    | some _ => none
  | fuel + 1, q, ws =>
    match takeBest (fun a b => decide (a.distance < b.distance)) ws.m_NGQueue with
    | none => some (q, ws)
    | some (gnode, rest) =>
      if (searchStep idx checkDeleted gnode q { ws with m_NGQueue := rest }).1 then
        searchLoop idx checkDeleted fuel
          (searchStep idx checkDeleted gnode q { ws with m_NGQueue := rest }).2.1
          (searchStep idx checkDeleted gnode q { ws with m_NGQueue := rest }).2.2
      else some (searchStep idx checkDeleted gnode q { ws with m_NGQueue := rest }).2

/-- The body `Search(CheckDeleted)` (lines 100-136): tree seeding, the loop, and
`p_query.SortResult()` on both ways out. -/
def Search (idx : Index) (checkDeleted : Bool) (fuel : Nat) (p_query : QueryResultSet D)
    (p_space : WorkSpace D) : Option (QueryResultSet D × WorkSpace D) :=
  let seeded := idx.m_pTrees.SearchTrees p_query (idx.m_pTrees.InitSearchTrees p_space)
    idx.m_iNumberOfInitialDynamicPivots
  (searchLoop idx checkDeleted fuel seeded.1 seeded.2).map (fun r => (r.1.SortResult, r.2))

/-- The source's `SearchIndexWithoutDeleted` (lines 138-142). -/
def Index.SearchIndexWithoutDeleted (idx : Index) (fuel : Nat) (p_query : QueryResultSet D)
    (p_space : WorkSpace D) : Option (QueryResultSet D × WorkSpace D) :=
  Search idx true fuel p_query p_space

/-- The source's `SearchIndexWithDeleted` (lines 144-148). -/
def Index.SearchIndexWithDeleted (idx : Index) (fuel : Nat) (p_query : QueryResultSet D)
    (p_space : WorkSpace D) : Option (QueryResultSet D × WorkSpace D) :=
  Search idx false fuel p_query p_space

/-- The source's `SearchIndex` (lines 150-175).  The metadata of lines 166-173 is attached to
the results without changing their ids or distances and is not modelled. -/
def Index.SearchIndex (idx : Index) (fuel : Nat) (p_query : QueryResultSet D)
    (p_searchDeleted : Bool) : Option (ErrorCode × QueryResultSet D) :=
  if !idx.m_bReady then some (ErrorCode.EmptyIndex, p_query)
  else if idx.m_deletedID.Count = 0 || p_searchDeleted then
    (idx.SearchIndexWithDeleted fuel p_query (WorkSpace.Reset idx.m_iMaxCheck)).map
      (fun r => (ErrorCode.Success, r.1))
  else
    (idx.SearchIndexWithoutDeleted fuel p_query (WorkSpace.Reset idx.m_iMaxCheck)).map
      (fun r => (ErrorCode.Success, r.1))

end Search

/-! ## Search: measures and invariants -/

/-- All ids that occur in the adjacency rows of the graph. -/
def NeighborhoodGraph.neighbours (g : NeighborhoodGraph) : List Int := g.rows.flatten

/-- The number of distinct ids of `U` that are not marked visited. -/
def unvisited (U visited : List Int) : Nat := (U.toFinset \ visited.toFinset).card

/-- A bound on the number of passes the search loop can still make: every pass pops one
queue entry, and an entry is pushed only for a pending leaf or for a neighbour that was not
yet visited. -/
def searchMeasure {D : Type} (idx : Index) (ws : WorkSpace D) : Nat :=
  ws.m_NGQueue.length + ws.m_SPTQueue.length + unvisited idx.m_pGraph.neighbours ws.m_hashTable

/-- The three local variables that survive the compaction loop of `RefineIndex`. -/
structure Compaction where
  indices : List Int
  reverseIndices : List Int
  newR : Int
deriving DecidableEq, Repr

/-- The inner loop `while (m_deletedID.Contains(newR - 1) && newR > i) newR--;`
(KDTIndex.cpp lines 275 and 320). `none` means the fuel ran out. -/
def shrinkTail (Contains : Int → Bool) (i : Int) : Nat → Int → Option Int
  | 0, newR => if Contains (newR - 1) && decide (newR > i) then none else some newR
  | fuel + 1, newR =>
    if Contains (newR - 1) && decide (newR > i) then shrinkTail Contains i fuel (newR - 1)
    else some newR

/-- The loop `for (SizeType i = 0; i < newR; i++) { ... }` of `RefineIndex`
(KDTIndex.cpp lines 269-281 and 314-326), started at a given `i`. -/
def compactLoop (Contains : Int → Bool) : Nat → Int → Compaction → Option Compaction
  | 0, i, c => if i < c.newR then none else some c
  | fuel + 1, i, c =>
    if i < c.newR then
      if !Contains i then
        compactLoop Contains fuel (i + 1)
          { c with indices := c.indices ++ [i],
                   reverseIndices := c.reverseIndices.set i.toNat i }
      else
        match shrinkTail Contains i (fuel + 1) c.newR with
        | none => none
        | some newR =>
          if newR = i then some { c with newR := newR }
          else
            compactLoop Contains fuel (i + 1)
              { indices := c.indices ++ [newR - 1],
                reverseIndices := c.reverseIndices.set (newR - 1).toNat i,
                newR := newR - 1 }
    else some c

/-- Lines 265-281 (and 310-326): `newR = GetNumSamples()`, `indices` empty,
`reverseIndices(newR)` zero-filled, then the loop. Both forms of `RefineIndex`
run the same text. -/
def refineCompaction (Contains : Int → Bool) (R : Int) : Option Compaction :=
  compactLoop Contains R.toNat 0
    { indices := [], reverseIndices := List.replicate R.toNat 0, newR := R }

/-- Number of ids in `[0, R)` that the deleted set contains. -/
def deletedCount (Contains : Int → Bool) (R : Nat) : Nat :=
  ((List.range R).filter (fun k : Nat => Contains (Int.ofNat k))).length

/-- Loop invariant of the compaction loop at counter `i`. -/
structure CompInv (Contains : Int → Bool) (R : Nat) (i : Int) (c : Compaction) : Prop where
  lo : 0 ≤ i
  le : i ≤ c.newR
  hi : c.newR ≤ R
  len : (c.indices.length : Int) = i
  rlen : c.reverseIndices.length = R
  pos : ∀ (j : Nat) (o : Int), c.indices[j]? = some o →
    0 ≤ o ∧ o < R ∧ Contains o = false ∧ c.reverseIndices[o.toNat]? = some (j : Int) ∧
      (o < i ∨ c.newR ≤ o)
  cov : ∀ o : Int, 0 ≤ o → o < R → Contains o = false →
    o ∈ c.indices ∨ (i ≤ o ∧ o < c.newR)

/-! ## Streams and blobs -/

/-- Modelled from the spec: what one of the blobs of a snapshot holds (section 6: samples,
trees, graph, deleted set, and the two metadata streams). -/
inductive Payload where
  | samples (d : Dataset)
  | trees (t : KDTree)
  | graph (g : NeighborhoodGraph)
  | labels (l : Labelset)
  | metadata (m : MetadataSet)
  | metaIndex (m : MetadataSet)
deriving DecidableEq, Repr

/-- Modelled from the spec: a stream `Helper::DiskPriorityIO`: the payloads it holds, in
order, and the code that a read or write on it reports (`Success` when it goes through). -/
structure IndexStream where
  content : List Payload
  status : ErrorCode
deriving DecidableEq, Repr

/-- Modelled from the spec: a write of one payload to a stream. -/
def IndexStream.write (s : IndexStream) (p : Payload) : ErrorCode × IndexStream :=
  if s.status = ErrorCode.Success then (ErrorCode.Success, { s with content := s.content ++ [p] })
  else (s.status, s)

/-- Modelled from the spec: an in-memory blob `ByteArray`, the payloads it decodes to. -/
abbrev ByteArray := List Payload

/-- Modelled from the spec: `Dataset::Load` from memory; a blob that does not hold samples
is rejected. -/
def Dataset.LoadBlob (b : ByteArray) (cur : Dataset) : ErrorCode × Dataset :=
  match b with
  | Payload.samples d :: _ => (ErrorCode.Success, d)
  | _ => (ErrorCode.FailedParseValue, cur)

/-- Modelled from the spec: `Dataset::Load` from a stream. -/
def Dataset.Load (s : IndexStream) (cur : Dataset) : ErrorCode × Dataset :=
  if s.status = ErrorCode.Success then Dataset.LoadBlob s.content cur else (s.status, cur)

/-- Modelled from the spec: `KDTree::LoadTrees` from memory. -/
def KDTree.LoadTreesBlob (b : ByteArray) (cur : KDTree) : ErrorCode × KDTree :=
  match b with
  | Payload.trees t :: _ => (ErrorCode.Success, t)
  | _ => (ErrorCode.FailedParseValue, cur)

/-- Modelled from the spec: `KDTree::LoadTrees` from a stream. -/
def KDTree.LoadTrees (s : IndexStream) (cur : KDTree) : ErrorCode × KDTree :=
  if s.status = ErrorCode.Success then KDTree.LoadTreesBlob s.content cur else (s.status, cur)

/-- Modelled from the spec: `NeighborhoodGraph::LoadGraph` from memory. -/
def NeighborhoodGraph.LoadGraphBlob (b : ByteArray) (cur : NeighborhoodGraph) :
    ErrorCode × NeighborhoodGraph :=
  match b with
  | Payload.graph g :: _ => (ErrorCode.Success, g)
  | _ => (ErrorCode.FailedParseValue, cur)

/-- Modelled from the spec: `NeighborhoodGraph::LoadGraph` from a stream. -/
def NeighborhoodGraph.LoadGraph (s : IndexStream) (cur : NeighborhoodGraph) :
    ErrorCode × NeighborhoodGraph :=
  if s.status = ErrorCode.Success then NeighborhoodGraph.LoadGraphBlob s.content cur
  else (s.status, cur)

/-- Modelled from the spec: `Labelset::Load` from memory. -/
def Labelset.LoadBlob (b : ByteArray) (cur : Labelset) : ErrorCode × Labelset :=
  match b with
  | Payload.labels l :: _ => (ErrorCode.Success, l)
  | _ => (ErrorCode.FailedParseValue, cur)

/-- Modelled from the spec: `Labelset::Load` from a stream. -/
def Labelset.Load (s : IndexStream) (cur : Labelset) : ErrorCode × Labelset :=
  if s.status = ErrorCode.Success then Labelset.LoadBlob s.content cur else (s.status, cur)

/-- Writes payload `p` to the stream `p_indexStreams[i]`.  `none` stands for an access the
source leaves undefined (no such element, or a null stream). -/
def writeAt (p_indexStreams : List (Option IndexStream)) (i : Nat) (p : Payload) :
    Option (ErrorCode × List (Option IndexStream)) :=
  match p_indexStreams[i]? with
  | some (some s) => some ((s.write p).1, p_indexStreams.set i (some (s.write p).2))
  | _ => none

/-- Modelled from the spec: the abort probe `IAbortOperation`; `answers` are the values
that successive calls of `ShouldAbort()` return (`false` once they are used up). -/
structure AbortProbe where
  answers : List Bool
deriving DecidableEq, Repr

/-- Modelled from the spec: one call of `ShouldAbort()`. -/
def AbortProbe.ShouldAbort (p : AbortProbe) : Bool × AbortProbe :=
  (p.answers.headD false, { answers := p.answers.tail })

/-- Modelled from the spec: the builders of forest and graph, whose code is not part of
`KDTIndex.cpp`; only their results matter here. -/
structure Builders where
  BuildTrees : Dataset → Option (List Int) → KDTree
  BuildGraph : Dataset → KDTree → NeighborhoodGraph → NeighborhoodGraph
  RefineGraph : NeighborhoodGraph → List Int → List Int → NeighborhoodGraph
  RefineNode : NeighborhoodGraph → Int → NeighborhoodGraph

/-! ## Operations of the engine -/

namespace Index

/-- The source's `LoadIndexDataFromMemory` (lines 29-44). -/
def LoadIndexDataFromMemory (idx : Index) (p_indexBlobs : List ByteArray) : ErrorCode × Index :=
  if p_indexBlobs.length < 3 then (ErrorCode.LackOfInputs, idx)
  else
    let s := Dataset.LoadBlob (p_indexBlobs.getD 0 []) idx.m_pSamples
    let i1 := { idx with m_pSamples := s.2 }
    if s.1 ≠ ErrorCode.Success then (ErrorCode.FailedParseValue, i1)
    else
      let t := KDTree.LoadTreesBlob (p_indexBlobs.getD 1 []) i1.m_pTrees
      let i2 := { i1 with m_pTrees := t.2 }
      if t.1 ≠ ErrorCode.Success then (ErrorCode.FailedParseValue, i2)
      else
        let g := NeighborhoodGraph.LoadGraphBlob (p_indexBlobs.getD 2 []) i2.m_pGraph
        let i3 := { i2 with m_pGraph := g.2 }
        if g.1 ≠ ErrorCode.Success then (ErrorCode.FailedParseValue, i3)
        else
          let l := Labelset.LoadBlob (p_indexBlobs.getD 3 []) i3.m_deletedID
          if p_indexBlobs.length > 3 ∧ l.1 ≠ ErrorCode.Success then
            (ErrorCode.FailedParseValue, { i3 with m_deletedID := l.2 })
          else
            let i4 := if p_indexBlobs.length > 3 then { i3 with m_deletedID := l.2 } else i3
            (ErrorCode.Success,
              { i4 with
                m_workSpacePool := some (i4.m_iNumberOfThreads,
                  max i4.m_iMaxCheck i4.m_pGraph.m_iMaxCheckForRefineGraph, i4.m_iHashTableExp),
                m_threadPoolJobs := 0 })

/-- The source's `LoadIndexData` (lines 46-63); `ret` is the local of that name. -/
def LoadIndexData (idx : Index) (p_indexStreams : List (Option IndexStream)) :
    ErrorCode × Index :=
  if p_indexStreams.length < 4 then (ErrorCode.LackOfInputs, idx)
  else
    match p_indexStreams.getD 0 none with
    | none => (ErrorCode.Success, idx)
    | some s0 =>
      let s := Dataset.Load s0 idx.m_pSamples
      let i1 := { idx with m_pSamples := s.2 }
      if s.1 ≠ ErrorCode.Success then (s.1, i1)
      else
        match p_indexStreams.getD 1 none with
        | none => (s.1, i1)
        | some s1 =>
          let t := KDTree.LoadTrees s1 i1.m_pTrees
          let i2 := { i1 with m_pTrees := t.2 }
          if t.1 ≠ ErrorCode.Success then (t.1, i2)
          else
            match p_indexStreams.getD 2 none with
            | none => (t.1, i2)
            | some s2 =>
              let g := NeighborhoodGraph.LoadGraph s2 i2.m_pGraph
              let i3 := { i2 with m_pGraph := g.2 }
              if g.1 ≠ ErrorCode.Success then (g.1, i3)
              else
                match p_indexStreams.getD 3 none with
                | none =>
                  let i4 := { i3 with m_deletedID :=
                    Labelset.Initialize (i3.m_pSamples.R : Int) i3.m_iDataCapacity }
                  (g.1,
                    { i4 with
                      m_workSpacePool := some (i4.m_iNumberOfThreads,
                        max i4.m_iMaxCheck i4.m_pGraph.m_iMaxCheckForRefineGraph,
                        i4.m_iHashTableExp),
                      m_threadPoolJobs := 0 })
                | some s3 =>
                  let l := Labelset.Load s3 i3.m_deletedID
                  let i4 := { i3 with m_deletedID := l.2 }
                  if l.1 ≠ ErrorCode.Success then (l.1, i4)
                  else
                    (l.1,
                      { i4 with
                        m_workSpacePool := some (i4.m_iNumberOfThreads,
                          max i4.m_iMaxCheck i4.m_pGraph.m_iMaxCheckForRefineGraph,
                          i4.m_iHashTableExp),
                        m_threadPoolJobs := 0 })

/-- The source's `BuildIndex` (lines 213-248).  `p_data` is `none` for a null pointer. Row
contents are not modelled, so the normalisation of lines 223-230 changes nothing here. -/
def BuildIndex (B : Builders) (idx : Index) (p_data : Option Unit) (p_vectorNum : Int)
    (p_dimension : Int) (_p_normalized : Bool) : ErrorCode × Index :=
  if p_data.isNone ∨ p_vectorNum = 0 ∨ p_dimension = 0 then (ErrorCode.EmptyData, idx)
  else
    let i1 := { idx with
      m_pSamples := Dataset.Initialize p_vectorNum p_dimension idx.m_iDataCapacity,
      m_deletedID := Labelset.Initialize p_vectorNum idx.m_iDataCapacity,
      m_workSpacePool := some (idx.m_iNumberOfThreads,
        max idx.m_iMaxCheck idx.m_pGraph.m_iMaxCheckForRefineGraph, idx.m_iHashTableExp),
      m_threadPoolJobs := 0 }
    let i2 := { i1 with m_pTrees := B.BuildTrees i1.m_pSamples none }
    let i3 := { i2 with m_pGraph := B.BuildGraph i2.m_pSamples i2.m_pTrees i2.m_pGraph }
    (ErrorCode.Success, { i3 with m_bReady := true })

/-- The source's `DeleteIndex(const SizeType&)` (lines 379-386). -/
def DeleteIndex (idx : Index) (p_id : Int) : ErrorCode × Index :=
  if !idx.m_bReady then (ErrorCode.EmptyIndex, idx)
  else if (idx.m_deletedID.Insert p_id).1 then
    (ErrorCode.Success, { idx with m_deletedID := (idx.m_deletedID.Insert p_id).2 })
  else (ErrorCode.VectorNotFound, { idx with m_deletedID := (idx.m_deletedID.Insert p_id).2 })

/-- The loop `for (SizeType node = begin; node < end; node++) m_pGraph.RefineNode(...)` of
`AddIndex` (lines 451-454), over the ids `begin, begin + 1, ...` given as a list. -/
def refineNodes (B : Builders) (idx : Index) : List Int → Index
  | [] => idx
  | node :: rest => refineNodes B { idx with m_pGraph := B.RefineNode idx.m_pGraph node } rest

/-- The source's `AddIndex` (lines 388-456).  `p_data` and `p_metadataSet` are `none` for
null pointers.  The three `AddBatch` calls of lines 413-415 are joined by `||`, so a later
one runs only when the earlier ones succeeded.  Row contents are not modelled, so the
normalisation of lines 422-428 changes nothing here. -/
def AddIndex (B : Builders) (idx : Index) (p_data : Option Unit) (p_vectorNum : Int)
    (p_dimension : Int) (p_metadataSet : Option MetadataSet) (p_withMetaIndex : Bool)
    (p_normalized : Bool) : ErrorCode × Index :=
  if p_data.isNone ∨ p_vectorNum = 0 ∨ p_dimension = 0 then (ErrorCode.EmptyData, idx)
  else
    let begin_ := idx.GetNumSamples
    let end_ := begin_ + p_vectorNum
    if begin_ = 0 then
      let i0 := match p_metadataSet with
        | some m => { idx with m_pMetadata := some m,
                               m_bHasMetaMapping := p_withMetaIndex || idx.m_bHasMetaMapping }
        | none => idx
      let r := BuildIndex B i0 p_data p_vectorNum p_dimension p_normalized
      if r.1 ≠ ErrorCode.Success then r else (ErrorCode.Success, r.2)
    else if p_dimension ≠ idx.GetFeatureDim then (ErrorCode.DimensionSizeMismatch, idx)
    else
      let s := idx.m_pSamples.AddBatch p_vectorNum
      let i1 := { idx with m_pSamples := s.2 }
      let g := i1.m_pGraph.AddBatch p_vectorNum
      let i2 := if s.1 ≠ ErrorCode.Success then i1 else { i1 with m_pGraph := g.2 }
      let l := i2.m_deletedID.AddBatch p_vectorNum
      let i3 := if s.1 ≠ ErrorCode.Success ∨ g.1 ≠ ErrorCode.Success then i2
        else { i2 with m_deletedID := l.2 }
      if s.1 ≠ ErrorCode.Success ∨ g.1 ≠ ErrorCode.Success ∨ l.1 ≠ ErrorCode.Success then
        (ErrorCode.MemoryOverFlow,
          { i3 with m_pSamples := i3.m_pSamples.SetR begin_,
                    m_pGraph := i3.m_pGraph.SetR begin_,
                    m_deletedID := i3.m_deletedID.SetR begin_ })
      else
        let i4 := match i3.m_pMetadata with
          | some m =>
            (match p_metadataSet with
              | some m2 => { i3 with m_pMetadata := some { count := m.count + m2.count } }
              | none => { i3 with m_pMetadata := some { count := m.count + p_vectorNum.toNat } })
          | none => i3
        let i5 :=
          if end_ - i4.m_pTrees.sizePerTree ≥ i4.m_addCountForRebuild ∧ i4.m_threadPoolJobs = 0
          then { i4 with m_threadPoolJobs := 1 } else i4
        (ErrorCode.Success,
          refineNodes B i5 ((List.range p_vectorNum.toNat).map (fun k => begin_ + (k : Int))))

/-- The tree-leaf rewrite of the streaming `RefineIndex` (lines 339-344): a leaf `L` of the
new forest becomes `reverseIndices[L]`. -/
def remapLeaves (t : KDTree) (reverseIndices : List Int) : KDTree :=
  { t with leafOrder := t.leafOrder.map (fun L => reverseIndices.getD L.toNat 0) }

/-- The source's `RefineIndex(p_indexStreams, p_abort)` (lines 304-360).  The engine itself
is not changed; the result is the returned code, the streams as written, and the probe
with the answers it has not been asked for.  `none` stands for a run the source leaves
undefined (a stream that is missing or null where it is written). -/
def RefineIndex (B : Builders) (idx : Index) (p_indexStreams : List (Option IndexStream))
    (p_abort : Option AbortProbe) :
    Option (ErrorCode × List (Option IndexStream) × Option AbortProbe) :=
  match refineCompaction idx.m_deletedID.Contains idx.GetNumSamples with
  | none => none
  | some c =>
    if c.newR = 0 then some (ErrorCode.EmptyIndex, p_indexStreams, p_abort)
    else
      match writeAt p_indexStreams 0
          (Payload.samples { idx.m_pSamples with R := c.indices.length }) with
      | none => none
      | some (ret0, st0) =>
        if ret0 ≠ ErrorCode.Success then some (ret0, st0, p_abort)
        else
          let a1 := p_abort.map (fun p => p.ShouldAbort)
          if a1.any (fun r => r.1) then
            some (ErrorCode.ExternalAbort, st0, a1.map (fun r => r.2))
          else
            match writeAt st0 1
                (Payload.trees (remapLeaves (B.BuildTrees idx.m_pSamples (some c.indices))
                  c.reverseIndices)) with
            | none => none
            | some (ret1, st1) =>
              if ret1 ≠ ErrorCode.Success then some (ret1, st1, a1.map (fun r => r.2))
              else
                let a2 := (a1.map (fun r => r.2)).map (fun p => p.ShouldAbort)
                if a2.any (fun r => r.1) then
                  some (ErrorCode.ExternalAbort, st1, a2.map (fun r => r.2))
                else
                  match writeAt st1 2
                      (Payload.graph (B.RefineGraph idx.m_pGraph c.indices c.reverseIndices)) with
                  | none => none
                  | some (ret2, st2) =>
                    if ret2 ≠ ErrorCode.Success then some (ret2, st2, a2.map (fun r => r.2))
                    else
                      match writeAt st2 3
                          (Payload.labels (Labelset.Initialize c.newR idx.m_iDataCapacity)) with
                      | none => none
                      | some (ret3, st3) =>
                        if ret3 ≠ ErrorCode.Success then some (ret3, st3, a2.map (fun r => r.2))
                        else
                          match idx.m_pMetadata with
                          | none => some (ret3, st3, a2.map (fun r => r.2))
                          | some m =>
                            if p_indexStreams.length < 6 then
                              some (ErrorCode.LackOfInputs, st3, a2.map (fun r => r.2))
                            else
                              match writeAt st3 4
                                  (Payload.metadata { count := c.indices.length }) with
                              | none => none
                              | some (ret4, st4) =>
                                if ret4 ≠ ErrorCode.Success then
                                  some (ret4, st4, a2.map (fun r => r.2))
                                else
                                  match writeAt st4 5
                                      (Payload.metaIndex
                                        { count := min m.count c.indices.length }) with
                                  | none => none
                                  | some (ret5, st5) => some (ret5, st5, a2.map (fun r => r.2))

end Index

/-! ## Parameter registry -/

/-- One line `DefineKDTParameter(VarName, VarType, DefaultValue, RepresentStr)` of the
parameter definition list (a header that is not part of the sources): the name
`RepresentStr`, the parser `ConvertStringTo<VarType>` of its declared type, and the current
value of `VarName`. -/
structure KDTParameter (V : Type) where
  RepresentStr : String
  ConvertStringTo : String → Option V
  value : V

/-- The part of the engine that `SetParameter` writes: the registered parameters, the
distance kernel (named by the method it was selected for) and `m_iBaseSquare`. -/
structure ParameterState (V : Type) where
  table : List (KDTParameter V)
  m_fComputeDistance : Option V
  m_iBaseSquare : Int

/-- Helpers of `SetParameter` whose code is not part of the sources. -/
structure ParameterHelpers (V : Type) where
  StrEqualIgnoreCase : String → String → Bool
  isCosine : V → Bool
  GetBase : Int

/-- The chain of `else if (StrEqualIgnoreCase(p_param, RepresentStr)) { ... }` that the
parameter definition list expands to inside `SetParameter` (lines 474-486). -/
def assignParameter {V : Type} (H : ParameterHelpers V) (p_param p_value : String) :
    List (KDTParameter V) → List (KDTParameter V)
  | [] => []
  | d :: rest =>
    if H.StrEqualIgnoreCase p_param d.RepresentStr then
      match d.ConvertStringTo p_value with
      | some tmp => { d with value := tmp } :: rest
      | none => d :: rest
    else d :: assignParameter H p_param p_value rest

/-- The current value of `m_iDistCalcMethod`. -/
def distCalcMethod {V : Type} (H : ParameterHelpers V) (table : List (KDTParameter V)) :
    Option V :=
  (table.find? (fun d => H.StrEqualIgnoreCase "DistCalcMethod" d.RepresentStr)).map
    (fun d => d.value)

/-- The source's `SetParameter` (lines 468-493); `none` is a null pointer. -/
def SetParameter {V : Type} (H : ParameterHelpers V) (st : ParameterState V)
    (p_param p_value : Option String) (_p_section : Option String) :
    ErrorCode × ParameterState V :=
  match p_param, p_value with
  | some param, some value =>
    let table := assignParameter H param value st.table
    if H.StrEqualIgnoreCase param "DistCalcMethod" then
      (ErrorCode.Success,
        { table := table,
          m_fComputeDistance := distCalcMethod H table,
          m_iBaseSquare :=
            if (distCalcMethod H table).any H.isCosine then H.GetBase * H.GetBase else 1 })
    else (ErrorCode.Success, { st with table := table })
  | _, _ => (ErrorCode.Fail, st)

/-! ## Sample states -/

/-- A small engine for trying the search: three rows, row 0 tombstoned, one tree. -/
def demoIndex : Index :=
  { m_pSamples := { R := 3, C := 2, capacity := 8 },
    m_pTrees := { leafOrder := [0, 1, 2], m_bSkipVisited := true, sizePerTree := 3 },
    m_pGraph := { rows := [[1, 2], [0, 2], [0, 1]], m_iNeighborhoodSize := 2, capacity := 8,
                  m_iMaxCheckForRefineGraph := 16, m_iCEF := 4, m_iAddCEF := 4 },
    m_deletedID := { bits := [true, false, false], capacity := 8 },
    m_pMetadata := none, m_bHasMetaMapping := false, m_bReady := true,
    m_workSpacePool := some (1, 16, 2), m_threadPoolJobs := 0, m_iDataCapacity := 8,
    m_iNumberOfThreads := 1, m_iMaxCheck := 16, m_iHashTableExp := 2,
    m_iNumberOfInitialDynamicPivots := 1, m_iNumberOfOtherDynamicPivots := 1,
    m_iThresholdOfNumberOfContinuousNoBetterPropagation := 3, m_addCountForRebuild := 1000 }

/-- A query for `demoIndex`: row `v` is at distance `v`, two results are asked for. -/
def demoQuery : QueryResultSet Nat :=
  { distTo := fun v => v.toNat, m_resultNum := 2, m_results := [] }

/-- Builders for trying the operations: the forest has one leaf per row (of the
subset, when one is given), the graph is kept. -/
def demoBuilders : Builders :=
  { BuildTrees := fun d sub =>
      { leafOrder := sub.getD ((List.range d.R).map Int.ofNat), m_bSkipVisited := true,
        sizePerTree := (d.R : Int) },
    BuildGraph := fun _ _ g => g,
    RefineGraph := fun g _ _ => g,
    RefineNode := fun g _ => g }

/-- The engine `demoIndex` with room for sixteen samples but only four graph rows. -/
def tightIndex : Index :=
  { demoIndex with
    m_pSamples := { R := 3, C := 2, capacity := 16 },
    m_pGraph := { demoIndex.m_pGraph with capacity := 4 } }

/-- The engine `demoIndex` with a metadata set of three records. -/
def metaIndex : Index := { demoIndex with m_pMetadata := some { count := 3 } }

/-- A number of empty streams that accept writes. -/
def emptyStreams (n : Nat) : List (Option IndexStream) :=
  List.replicate n (some { content := [], status := ErrorCode.Success })

/-- An engine as it is before anything has been built or loaded. -/
def freshIndex : Index :=
  { m_pSamples := { R := 0, C := 0, capacity := 8 },
    m_pTrees := { leafOrder := [], m_bSkipVisited := true, sizePerTree := 0 },
    m_pGraph := { rows := [], m_iNeighborhoodSize := 2, capacity := 8,
                  m_iMaxCheckForRefineGraph := 16, m_iCEF := 4, m_iAddCEF := 4 },
    m_deletedID := { bits := [], capacity := 8 },
    m_pMetadata := none, m_bHasMetaMapping := false, m_bReady := false,
    m_workSpacePool := none, m_threadPoolJobs := 0, m_iDataCapacity := 8,
    m_iNumberOfThreads := 1, m_iMaxCheck := 16, m_iHashTableExp := 2,
    m_iNumberOfInitialDynamicPivots := 1, m_iNumberOfOtherDynamicPivots := 1,
    m_iThresholdOfNumberOfContinuousNoBetterPropagation := 3, m_addCountForRebuild := 1000 }

/-- The samples, trees and graph blobs of a snapshot of `demoIndex`. -/
def demoBlobs : List ByteArray :=
  [[Payload.samples demoIndex.m_pSamples], [Payload.trees demoIndex.m_pTrees],
   [Payload.graph demoIndex.m_pGraph]]

/-- The streams of a snapshot of `demoIndex` with a null fourth stream. -/
def demoStreams : List (Option IndexStream) :=
  [some { content := [Payload.samples demoIndex.m_pSamples], status := ErrorCode.Success },
   some { content := [Payload.trees demoIndex.m_pTrees], status := ErrorCode.Success },
   some { content := [Payload.graph demoIndex.m_pGraph], status := ErrorCode.Success },
   none]

/-- The result of the compaction loop on `demoIndex` (row 0 deleted, row 2 moved down). -/
def demoCompaction : Compaction :=
  { indices := [2, 1], reverseIndices := [0, 1, 0], newR := 2 }

/-- Six empty streams after the compacted samples of `metaIndex` were written to the first. -/
def demoAfterSamples : List (Option IndexStream) :=
  (emptyStreams 6).set 0
    (some { content := [Payload.samples { R := 2, C := 2, capacity := 8 }],
            status := ErrorCode.Success })

/-- A probe that reports abort when it is asked the second time. -/
def demoProbe : AbortProbe := { answers := [false, true] }

/-- Reads a decimal number from a list of characters; `none` when a character is not a digit.
The accumulator holds the digits read so far. -/
def readDigits : List Char → Nat → Option Nat
  | [], acc => some acc
  | ch :: rest, acc =>
    if 48 ≤ ch.toNat ∧ ch.toNat ≤ 57 then readDigits rest (10 * acc + (ch.toNat - 48)) else none

/-- A parser for trying `SetParameter`: non-empty decimal numerals parse, nothing else does. -/
def demoConvert (s : String) : Option Int :=
  if s.data = [] then none else (readDigits s.data 0).map (fun n => (n : Int))

/-- Helpers for trying `SetParameter`; names are compared after lowering ASCII capitals. -/
def demoHelpers : ParameterHelpers Int :=
  { StrEqualIgnoreCase := fun a b =>
      decide (a.data.map (fun ch => if 65 ≤ ch.toNat ∧ ch.toNat ≤ 90 then ch.toNat + 32 else ch.toNat)
        = b.data.map (fun ch => if 65 ≤ ch.toNat ∧ ch.toNat ≤ 90 then ch.toNat + 32 else ch.toNat)),
    isCosine := fun v => decide (v = 1),
    GetBase := 127 }

/-- A parameter state with two registered parameters. -/
def demoParameters : ParameterState Int :=
  { table := [{ RepresentStr := "MaxCheck", ConvertStringTo := demoConvert, value := 8192 },
              { RepresentStr := "DistCalcMethod", ConvertStringTo := demoConvert, value := 0 }],
    m_fComputeDistance := some 0,
    m_iBaseSquare := 1 }

/-- Four streams of a snapshot of `demoIndex` of which the first is null. -/
def nullSamplesStreams : List (Option IndexStream) :=
  [none,
   some { content := [Payload.trees demoIndex.m_pTrees], status := ErrorCode.Success },
   some { content := [Payload.graph demoIndex.m_pGraph], status := ErrorCode.Success },
   none]

/-- Four streams of a snapshot of `demoIndex` of which the second is null. -/
def nullTreesStreams : List (Option IndexStream) :=
  [some { content := [Payload.samples demoIndex.m_pSamples], status := ErrorCode.Success },
   none,
   some { content := [Payload.graph demoIndex.m_pGraph], status := ErrorCode.Success },
   none]

/-- Four streams of a snapshot of `demoIndex` of which the third is null. -/
def nullGraphStreams : List (Option IndexStream) :=
  [some { content := [Payload.samples demoIndex.m_pSamples], status := ErrorCode.Success },
   some { content := [Payload.trees demoIndex.m_pTrees], status := ErrorCode.Success },
   none,
   none]

/-! ## Compaction of `RefineIndex`: the indices it touches -/

/-- The indices that the compaction loop passes to `m_deletedID.Contains` and those at
which it writes `reverseIndices`, each in program order. -/
structure CompactionTrace where
  contains : List Int
  writes : List Int
deriving DecidableEq, Repr

/-- The inner loop `while (m_deletedID.Contains(newR - 1) && newR > i) newR--;` as in
`shrinkTail`, together with the indices it passes to `Contains`: every evaluation of the
condition calls `Contains(newR - 1)` first and compares `newR > i` only when that call
returned true. -/
def shrinkTailTrace (Contains : Int → Bool) (i : Int) : Nat → Int → Option (Int × List Int)
  | 0, newR =>
    if Contains (newR - 1) && decide (newR > i) then none else some (newR, [newR - 1])
  | fuel + 1, newR =>
    if Contains (newR - 1) && decide (newR > i) then
      (shrinkTailTrace Contains i fuel (newR - 1)).map (fun r => (r.1, (newR - 1) :: r.2))
    else some (newR, [newR - 1])

/-- The loop of `compactLoop` together with the trace of the indices it touches: the test
`!m_deletedID.Contains(i)` of lines 270/315, the calls of the inner loop, and the writes
`reverseIndices[i] = i` and `reverseIndices[newR - 1] = i`. -/
def compactTrace (Contains : Int → Bool) :
    Nat → Int → Compaction → CompactionTrace → Option (Compaction × CompactionTrace)
  | 0, i, c, t => if i < c.newR then none else some (c, t)
  | fuel + 1, i, c, t =>
    if i < c.newR then
      if !Contains i then
        compactTrace Contains fuel (i + 1)
          { c with indices := c.indices ++ [i],
                   reverseIndices := c.reverseIndices.set i.toNat i }
          { contains := t.contains ++ [i], writes := t.writes ++ [i] }
      else
        match shrinkTailTrace Contains i (fuel + 1) c.newR with
        | none => none
        | some (newR, seen) =>
          if newR = i then
            some ({ c with newR := newR }, { t with contains := t.contains ++ [i] ++ seen })
          else
            compactTrace Contains fuel (i + 1)
              { indices := c.indices ++ [newR - 1],
                reverseIndices := c.reverseIndices.set (newR - 1).toNat i,
                newR := newR - 1 }
              { contains := t.contains ++ [i] ++ seen, writes := t.writes ++ [newR - 1] }
    else some (c, t)

/-- The compaction of `refineCompaction` together with its trace. -/
def refineTrace (Contains : Int → Bool) (R : Int) : Option (Compaction × CompactionTrace) :=
  compactTrace Contains R.toNat 0
    { indices := [], reverseIndices := List.replicate R.toNat 0, newR := R }
    { contains := [], writes := [] }

/-- The engine `demoIndex` with every row tombstoned. -/
def allDeletedIndex : Index :=
  { demoIndex with m_deletedID := { bits := [true, true, true], capacity := 8 } }

/-! ## Search: the popped ids -/

/-- The loop of `searchLoop` together with the ids `gnode.node` it pops, in order: one entry
for every pass through the body of the `while` loop. -/
def searchTrace {D : Type} [LT D] [LE D] [DecidableRel (α := D) (· < ·)]
    [DecidableRel (α := D) (· ≤ ·)] (idx : Index) (checkDeleted : Bool) :
    Nat → QueryResultSet D → WorkSpace D → Option (List Int × QueryResultSet D × WorkSpace D)
  | 0, q, ws =>
    match takeBest (fun a b => decide (a.distance < b.distance)) ws.m_NGQueue with
    | none => some ([], q, ws)
    | some _ => none
  | fuel + 1, q, ws =>
    match takeBest (fun a b => decide (a.distance < b.distance)) ws.m_NGQueue with
    | none => some ([], q, ws)
    | some (gnode, rest) =>
      if (searchStep idx checkDeleted gnode q { ws with m_NGQueue := rest }).1 then
        (searchTrace idx checkDeleted fuel
          (searchStep idx checkDeleted gnode q { ws with m_NGQueue := rest }).2.1
          (searchStep idx checkDeleted gnode q { ws with m_NGQueue := rest }).2.2).map
          (fun r => (gnode.node :: r.1, r.2))
      else some ([gnode.node], (searchStep idx checkDeleted gnode q { ws with m_NGQueue := rest }).2)

/-- The ids that can enter the queue: the leaves of the forest and the non-negative entries
of the adjacency rows. -/
def Index.searchIds (idx : Index) : List Int :=
  idx.m_pTrees.leafOrder ++ idx.m_pGraph.neighbours.filter (fun v => decide (0 ≤ v))

/-- The number of distinct ids that can enter the queue. -/
def Index.idCount (idx : Index) : Nat := idx.searchIds.toFinset.card

/-- Invariant of the search when every push goes with a first visit: no id is queued
twice, every queued id is visited and is one of `searchIds`, and the pending part of the
descent is a tail of `leafOrder`. -/
def PopInv {D : Type} (idx : Index) (ws : WorkSpace D) : Prop :=
  ws.queued.Nodup ∧ (∀ v ∈ ws.queued, v ∈ ws.m_hashTable) ∧
  (∀ v ∈ ws.queued, v ∈ idx.searchIds) ∧
  ∃ reached : List Int, idx.m_pTrees.leafOrder = reached ++ ws.m_SPTQueue

/-- How the workspace `ws1` has grown out of `ws0`: what is queued in `ws1` was queued in
`ws0` or was not visited in `ws0`, and what was visited stays visited. -/
def Grows {D : Type} (ws0 ws1 : WorkSpace D) : Prop :=
  (∀ v ∈ ws1.queued, v ∈ ws0.queued ∨ v ∉ ws0.m_hashTable) ∧
  (∀ v ∈ ws0.m_hashTable, v ∈ ws1.m_hashTable)
/-! # Theorems -/

/-! ## Compaction: proofs -/

theorem shrinkTail_spec (Contains : Int → Bool) (i : Int) :
    ∀ (fuel : Nat) (newR : Int), i ≤ newR → newR - i ≤ fuel →
      ∃ r, shrinkTail Contains i fuel newR = some r ∧ i ≤ r ∧ r ≤ newR ∧
        (∀ o, r ≤ o → o < newR → Contains o = true) ∧
        (r = i ∨ Contains (r - 1) = false) := by
  intro fuel
  induction fuel with
  | zero =>
    intro newR h1 h2
    have h3 : newR = i := by omega
    refine ⟨newR, ?_, h1, le_refl _, ?_, Or.inl h3⟩
    · simp [shrinkTail, h3]
    · intro o h4 h5; omega
  | succ n ih =>
    intro newR h1 h2
    by_cases hc : (Contains (newR - 1) && decide (newR > i)) = true
    · have hc1 : Contains (newR - 1) = true := by
        simp only [Bool.and_eq_true] at hc; exact hc.1
      have hc2 : newR > i := by
        simp only [Bool.and_eq_true, decide_eq_true_eq] at hc; exact hc.2
      obtain ⟨r, hr, h3, h4, h5, h6⟩ := ih (newR - 1) (by omega) (by omega)
      refine ⟨r, ?_, h3, by omega, ?_, h6⟩
      · simp only [shrinkTail, hc, if_true]; exact hr
      · intro o ho1 ho2
        by_cases ho : o = newR - 1
        · rw [ho]; exact hc1
        · exact h5 o ho1 (by omega)
    · refine ⟨newR, ?_, h1, le_refl _, ?_, ?_⟩
      · simp only [shrinkTail, hc]; rfl
      · intro o h4 h5; omega
      · by_cases hgt : newR > i
        · right
          simp only [Bool.and_eq_true, decide_eq_true_eq, not_and] at hc
          by_contra hcon
          exact hc (by simpa using hcon) hgt
        · left; omega

theorem getElem?_append_single {α : Type} (l : List α) (x : α) (j : Nat) (o : α)
    (h : (l ++ [x])[j]? = some o) : l[j]? = some o ∨ (j = l.length ∧ o = x) := by
  by_cases hj : j < l.length
  · rw [List.getElem?_append_left hj] at h; exact Or.inl h
  · rw [List.getElem?_append_right (by omega)] at h
    right
    have hj0 : j - l.length = 0 := by
      by_contra hne
      obtain ⟨k, hk⟩ := Nat.exists_eq_succ_of_ne_zero hne
      rw [hk] at h; simp at h
    rw [hj0] at h
    simp at h
    exact ⟨by omega, h.symm⟩

theorem getElem?_set_other (l : List Int) (a b : Nat) (v w : Int)
    (h : l[a]? = some w) (hab : a ≠ b) : (l.set b v)[a]? = some w := by
  rw [List.getElem?_set_ne (Ne.symm hab)]; exact h

theorem getElem?_set_same (l : List Int) (b : Nat) (v : Int)
    (h : b < l.length) : (l.set b v)[b]? = some v := by
  simp [List.getElem?_set, h]

theorem compInv_keep (Contains : Int → Bool) (R : Nat) (i : Int) (c : Compaction)
    (inv : CompInv Contains R i c) (hlt : i < c.newR) (hc : Contains i = false) :
    CompInv Contains R (i + 1)
      { c with indices := c.indices ++ [i],
               reverseIndices := c.reverseIndices.set i.toNat i } := by
  have hlo := inv.lo
  have hhi := inv.hi
  have hlen := inv.len
  have hrlen := inv.rlen
  refine ⟨by omega, by simp only; omega, inv.hi, ?_, ?_, ?_, ?_⟩
  · simp only [List.length_append, List.length_singleton]; push_cast; omega
  · simp only [List.length_set]; exact inv.rlen
  · intro j o hj
    rcases getElem?_append_single _ _ _ _ hj with h | ⟨h1, h2⟩
    · obtain ⟨p1, p2, p3, p4, p5⟩ := inv.pos j o h
      refine ⟨p1, p2, p3, ?_, ?_⟩
      · apply getElem?_set_other _ _ _ _ _ p4
        intro heq
        rcases p5 with p5 | p5 <;> omega
      · rcases p5 with p5 | p5
        · left; omega
        · right; exact p5
    · subst h2
      refine ⟨hlo, by omega, hc, ?_, Or.inl (by omega)⟩
      have : ((j : Nat) : Int) = o := by rw [h1]; exact hlen
      rw [this]
      exact getElem?_set_same _ _ _ (by omega)
  · intro o h1 h2 h3
    rcases inv.cov o h1 h2 h3 with h | ⟨h4, h5⟩
    · left; simp only [List.mem_append]; exact Or.inl h
    · by_cases ho : o = i
      · left; simp only [List.mem_append, List.mem_singleton]; exact Or.inr ho
      · right; simp only; omega

theorem compInv_swap (Contains : Int → Bool) (R : Nat) (i r : Int) (c : Compaction)
    (inv : CompInv Contains R i c) (hc : Contains i = true)
    (h1 : i ≤ r) (h2 : r ≤ c.newR) (h3 : ∀ o, r ≤ o → o < c.newR → Contains o = true)
    (h4 : Contains (r - 1) = false) (hne : r ≠ i) :
    CompInv Contains R (i + 1)
      { indices := c.indices ++ [r - 1],
        reverseIndices := c.reverseIndices.set (r - 1).toNat i,
        newR := r - 1 } := by
  have hlo := inv.lo
  have hhi := inv.hi
  have hlen := inv.len
  have hrlen := inv.rlen
  have hr1 : r - 1 ≠ i := by
    intro heq; rw [heq] at h4; rw [hc] at h4; exact Bool.noConfusion h4
  refine ⟨by omega, by simp only; omega, by simp only; omega, ?_, ?_, ?_, ?_⟩
  · simp only [List.length_append, List.length_singleton]; push_cast; omega
  · simp only [List.length_set]; exact inv.rlen
  · intro j o hj
    rcases getElem?_append_single _ _ _ _ hj with h | ⟨hj1, hj2⟩
    · obtain ⟨p1, p2, p3, p4, p5⟩ := inv.pos j o h
      refine ⟨p1, p2, p3, ?_, ?_⟩
      · apply getElem?_set_other _ _ _ _ _ p4
        intro heq
        rcases p5 with p5 | p5 <;> omega
      · rcases p5 with p5 | p5
        · left; omega
        · right; simp only; omega
    · subst hj2
      refine ⟨by omega, by omega, h4, ?_, Or.inr (le_refl _)⟩
      have : ((j : Nat) : Int) = i := by rw [hj1]; exact hlen
      rw [this]
      exact getElem?_set_same _ _ _ (by omega)
  · intro o ho1 ho2 ho3
    rcases inv.cov o ho1 ho2 ho3 with h | ⟨h5, h6⟩
    · left; simp only [List.mem_append]; exact Or.inl h
    · have hoi : o ≠ i := by
        intro heq; rw [heq] at ho3; rw [hc] at ho3; exact Bool.noConfusion ho3
      have hor : o < r := by
        by_contra hcon
        have := h3 o (by omega) h6
        rw [ho3] at this; exact Bool.noConfusion this
      by_cases ho : o = r - 1
      · left; simp only [List.mem_append, List.mem_singleton]; exact Or.inr ho
      · right; simp only; omega

theorem compInv_stop (Contains : Int → Bool) (R : Nat) (i : Int) (c : Compaction)
    (inv : CompInv Contains R i c)
    (h3 : ∀ o, i ≤ o → o < c.newR → Contains o = true) :
    CompInv Contains R i { c with newR := i } := by
  have hlo := inv.lo
  have hhi := inv.hi
  have hle := inv.le
  refine ⟨hlo, le_refl _, by simp only; omega, inv.len, inv.rlen, ?_, ?_⟩
  · intro j o hj
    obtain ⟨p1, p2, p3, p4, p5⟩ := inv.pos j o hj
    refine ⟨p1, p2, p3, p4, ?_⟩
    rcases p5 with p5 | p5
    · exact Or.inl p5
    · right; simp only; omega
  · intro o ho1 ho2 ho3
    rcases inv.cov o ho1 ho2 ho3 with h | ⟨h5, h6⟩
    · exact Or.inl h
    · have := h3 o h5 h6
      rw [ho3] at this; exact Bool.noConfusion this

theorem compactLoop_spec (Contains : Int → Bool) (R : Nat) :
    ∀ (fuel : Nat) (i : Int) (c : Compaction), CompInv Contains R i c → c.newR - i ≤ fuel →
      ∃ c', compactLoop Contains fuel i c = some c' ∧ CompInv Contains R c'.newR c' := by
  intro fuel
  induction fuel with
  | zero =>
    intro i c inv hf
    have hle := inv.le
    have hi : i = c.newR := by omega
    refine ⟨c, ?_, ?_⟩
    · simp [compactLoop, hi]
    · rw [← hi]; exact inv
  | succ n ih =>
    intro i c inv hf
    have hle := inv.le
    by_cases hlt : i < c.newR
    · cases hc : Contains i with
      | false =>
        have hstep := ih (i + 1) _ (compInv_keep Contains R i c inv hlt hc) (by simp only; omega)
        obtain ⟨c', hc1, hc2⟩ := hstep
        refine ⟨c', ?_, hc2⟩
        simp only [compactLoop, hlt, hc, if_true, Bool.not_false]
        exact hc1
      | true =>
        obtain ⟨r, hr, h1, h2, h3, h4⟩ :=
          shrinkTail_spec Contains i (n + 1) c.newR hle (by omega)
        by_cases hri : r = i
        · refine ⟨{ c with newR := r }, ?_, ?_⟩
          · simp only [compactLoop, hlt, hc, if_true, Bool.not_true, hr, hri]
            simp
          · subst hri
            exact compInv_stop Contains R r c inv h3
        · have h4b : Contains (r - 1) = false := by
            rcases h4 with h4 | h4
            · exact absurd h4 hri
            · exact h4
          have hstep := ih (i + 1) _
            (compInv_swap Contains R i r c inv hc h1 h2 h3 h4b hri) (by simp only; omega)
          obtain ⟨c', hc1, hc2⟩ := hstep
          refine ⟨c', ?_, hc2⟩
          simp only [compactLoop, hlt, hc, if_true, Bool.not_true, hr, hri]
          simpa using hc1
    · have hi : i = c.newR := by omega
      refine ⟨c, ?_, ?_⟩
      · simp [compactLoop, hlt]
      · rw [← hi]; exact inv

theorem compInv_init (Contains : Int → Bool) (R : Nat) :
    CompInv Contains R 0
      { indices := [], reverseIndices := List.replicate (R : Int).toNat 0, newR := (R : Int) } := by
  refine ⟨le_refl _, by simp, le_refl _, by simp, by simp, ?_, ?_⟩
  · intro j o hj; simp at hj
  · intro o h1 h2 _; right; exact ⟨h1, h2⟩

theorem refineCompaction_spec (Contains : Int → Bool) (R : Nat) :
    ∃ c, refineCompaction Contains (R : Int) = some c ∧ CompInv Contains R c.newR c := by
  unfold refineCompaction
  exact compactLoop_spec Contains R _ 0 _ (compInv_init Contains R) (by simp)

theorem compInv_nodup (Contains : Int → Bool) (R : Nat) (i : Int) (c : Compaction)
    (inv : CompInv Contains R i c) : c.indices.Nodup := by
  rw [List.nodup_iff_getElem?_ne_getElem?]
  intro a b hab hb heq
  have ha : a < c.indices.length := by omega
  have h1 : c.indices[b]? = some (c.indices[b]) := List.getElem?_eq_getElem hb
  have h2 : c.indices[a]? = some (c.indices[b]) := by rw [heq]; exact h1
  obtain ⟨_, _, _, q1, _⟩ := inv.pos a _ h2
  obtain ⟨_, _, _, q2, _⟩ := inv.pos b _ h1
  rw [q1] at q2
  have : (a : Int) = (b : Int) := Option.some.inj q2
  omega

theorem compInv_length (Contains : Int → Bool) (R : Nat) (c : Compaction)
    (inv : CompInv Contains R c.newR c) :
    c.indices.length + deletedCount Contains R = R := by
  have hnd := compInv_nodup Contains R _ c inv
  have hnd2 : (((List.range R).map (fun k : Nat => (k : Int))).filter
      (fun o => !Contains o)).Nodup := by
    apply List.Nodup.filter
    apply List.Nodup.map _ (List.nodup_range R)
    intro a b hab; exact Int.ofNat.inj hab
  have hperm : c.indices.Perm (((List.range R).map (fun k : Nat => (k : Int))).filter
      (fun o => !Contains o)) := by
    rw [List.perm_ext_iff_of_nodup hnd hnd2]
    intro o
    constructor
    · intro ho
      obtain ⟨j, hj⟩ := List.getElem?_of_mem ho
      obtain ⟨p1, p2, p3, _, _⟩ := inv.pos j o hj
      simp only [List.mem_filter, List.mem_map, List.mem_range, p3, Bool.not_false, and_true]
      exact ⟨o.toNat, by omega, by omega⟩
    · intro ho
      simp only [List.mem_filter, List.mem_map, List.mem_range, Bool.not_eq_true'] at ho
      obtain ⟨⟨k, hk1, hk2⟩, hc⟩ := ho
      rcases inv.cov o (by omega) (by omega) hc with h | ⟨h1, h2⟩
      · exact h
      · omega
  have hlen := hperm.length_eq
  have hsplit := List.length_eq_length_filter_add
    (l := (List.range R).map (fun k : Nat => (k : Int))) (fun o => Contains o)
  have hdel : ((List.map (fun k : Nat => (k : Int)) (List.range R)).filter
      (fun o => Contains o)).length = deletedCount Contains R := by
    unfold deletedCount
    rw [List.filter_map, List.length_map]
    rfl
  simp only [List.length_map, List.length_range] at hsplit
  rw [hdel] at hsplit
  rw [hlen]
  omega

/-- C2: for every sample count `R` and every deleted set, the tail-swap compaction loop of
`RefineIndex` (the same text in both forms) finishes, with `|indices| == newR` and
`newR == R` minus the number of deleted ids in `[0, R)`. -/
theorem refineCompaction_size (Contains : Int → Bool) (R : Nat) :
    ∃ c, refineCompaction Contains (R : Int) = some c ∧
      (c.indices.length : Int) = c.newR ∧
      c.newR = (R : Int) - (deletedCount Contains R : Int) := by
  obtain ⟨c, hc, inv⟩ := refineCompaction_spec Contains R
  have hlen := inv.len
  have hcount := compInv_length Contains R c inv
  exact ⟨c, hc, hlen, by omega⟩

/-- C3: for every `R` and every deleted set, after the tail-swap compaction loop of
`RefineIndex`: every position `j` of `indices` holds an id `o` in `[0, R)` that is not
deleted, with `reverseIndices[o] == j`; `indices` has no repeated entry; and for every
surviving old id `o`, `reverseIndices[o]` is the new row `j` with `indices[j] == o`. -/
theorem refineCompaction_maps (Contains : Int → Bool) (R : Nat) :
    ∃ c, refineCompaction Contains (R : Int) = some c ∧
      (∀ (j : Nat) (o : Int), c.indices[j]? = some o →
        0 ≤ o ∧ o < R ∧ Contains o = false ∧ c.reverseIndices[o.toNat]? = some (j : Int)) ∧
      c.indices.Nodup ∧
      (∀ o : Int, 0 ≤ o → o < R → Contains o = false →
        ∃ j : Nat, c.reverseIndices[o.toNat]? = some (j : Int) ∧ c.indices[j]? = some o) := by
  obtain ⟨c, hc, inv⟩ := refineCompaction_spec Contains R
  refine ⟨c, hc, ?_, compInv_nodup Contains R _ c inv, ?_⟩
  · intro j o hj
    obtain ⟨p1, p2, p3, p4, _⟩ := inv.pos j o hj
    exact ⟨p1, p2, p3, p4⟩
  · intro o h1 h2 h3
    rcases inv.cov o h1 h2 h3 with h | ⟨h4, h5⟩
    · obtain ⟨j, hj⟩ := List.getElem?_of_mem h
      obtain ⟨_, _, _, p4, _⟩ := inv.pos j o hj
      exact ⟨j, p4, hj⟩
    · omega


/-! ## DeleteIndex -/

theorem Labelset.contains_set_same (bits : List Bool) (cap : Nat) (vid : Int)
    (h0 : 0 ≤ vid) (h1 : vid < (bits.length : Int)) :
    Labelset.Contains { bits := bits.set vid.toNat true, capacity := cap } vid = true := by
  have hlt : vid.toNat < bits.length := by omega
  simp [Labelset.Contains, h0, List.getD_eq_getElem?_getD, List.getElem?_set, hlt]

theorem Labelset.contains_set_other (bits : List Bool) (cap : Nat) (vid u : Int)
    (h0 : 0 ≤ vid) (hu : u ≠ vid) :
    Labelset.Contains { bits := bits.set vid.toNat true, capacity := cap } u =
      Labelset.Contains { bits := bits, capacity := cap } u := by
  unfold Labelset.Contains
  by_cases hu0 : 0 ≤ u
  · have hne : vid.toNat ≠ u.toNat := by omega
    simp [hu0, List.getD_eq_getElem?_getD, List.getElem?_set_ne hne]
  · simp [hu0]

/-- C4, as stated, fails: on the ready engine `demoIndex`, whose deleted set has three bits,
id 7 is not in the deleted set, yet `DeleteIndex(7)` returns `VectorNotFound`, and id 7 is
not in the deleted set afterwards. -/
theorem DeleteIndex_unknown_id :
    demoIndex.m_bReady = true ∧ demoIndex.m_deletedID.Contains 7 = false ∧
      (demoIndex.DeleteIndex 7).1 = ErrorCode.VectorNotFound ∧
      (demoIndex.DeleteIndex 7).1 ≠ ErrorCode.Success ∧
      (demoIndex.DeleteIndex 7).2.m_deletedID.Contains 7 = false := by
  decide

/-- C4, amended: on a ready engine, for an id `vid` that has a bit in the deleted set
(`0 <= vid < length`), `DeleteIndex(vid)` returns `Success` iff `vid` was not in the deleted
set before the call and `VectorNotFound` iff it was; afterwards `vid` is in the deleted set
and the status of every other id is unchanged.  For an id without a bit the call returns
`VectorNotFound` and leaves the engine as it was. -/
theorem DeleteIndex_spec (idx : Index) (vid : Int) (hready : idx.m_bReady = true) :
    ((0 ≤ vid ∧ vid < idx.m_deletedID.R) →
      ((idx.DeleteIndex vid).1 = ErrorCode.Success ↔ idx.m_deletedID.Contains vid = false) ∧
      ((idx.DeleteIndex vid).1 = ErrorCode.VectorNotFound ↔
        idx.m_deletedID.Contains vid = true) ∧
      (idx.DeleteIndex vid).2.m_deletedID.Contains vid = true ∧
      (∀ u : Int, u ≠ vid →
        (idx.DeleteIndex vid).2.m_deletedID.Contains u = idx.m_deletedID.Contains u)) ∧
    (¬ (0 ≤ vid ∧ vid < idx.m_deletedID.R) →
      (idx.DeleteIndex vid).1 = ErrorCode.VectorNotFound ∧ (idx.DeleteIndex vid).2 = idx) := by
  constructor
  · rintro ⟨h0, h1⟩
    have h1b : vid < (idx.m_deletedID.bits.length : Int) := h1
    cases hc : idx.m_deletedID.Contains vid with
    | false =>
      have hins : idx.m_deletedID.Insert vid =
          (true, { idx.m_deletedID with bits := idx.m_deletedID.bits.set vid.toNat true }) := by
        simp [Labelset.Insert, h0, h1b, hc]
      simp only [Index.DeleteIndex, hready, hins]
      refine ⟨by simp, by simp, ?_, ?_⟩
      · exact Labelset.contains_set_same _ _ _ h0 h1b
      · intro u hu
        exact Labelset.contains_set_other _ _ _ _ h0 hu
    | true =>
      have hins : idx.m_deletedID.Insert vid = (false, idx.m_deletedID) := by
        simp [Labelset.Insert, hc]
      simp only [Index.DeleteIndex, hready, hins]
      refine ⟨by simp, by simp, ?_, ?_⟩
      · simpa using hc
      · intro u _; rfl
  · intro hout
    have hout2 : ¬ (0 ≤ vid ∧ vid < (idx.m_deletedID.bits.length : Int)) := hout
    have hins : idx.m_deletedID.Insert vid = (false, idx.m_deletedID) := by
      unfold Labelset.Insert
      rw [if_neg]
      intro h; exact hout2 ⟨h.1, h.2.1⟩
    unfold Index.DeleteIndex
    rw [hins]
    cases idx
    simp only at hready
    subst hready
    simp

/-- Witness for `DeleteIndex_spec`: the ready engine `demoIndex` and id 1. -/
theorem DeleteIndex_spec_witness :
    demoIndex.m_bReady = true ∧
    (((0 ≤ (1 : Int) ∧ (1 : Int) < demoIndex.m_deletedID.R) →
      ((demoIndex.DeleteIndex 1).1 = ErrorCode.Success ↔
        demoIndex.m_deletedID.Contains 1 = false) ∧
      ((demoIndex.DeleteIndex 1).1 = ErrorCode.VectorNotFound ↔
        demoIndex.m_deletedID.Contains 1 = true) ∧
      (demoIndex.DeleteIndex 1).2.m_deletedID.Contains 1 = true ∧
      (∀ u : Int, u ≠ 1 →
        (demoIndex.DeleteIndex 1).2.m_deletedID.Contains u =
          demoIndex.m_deletedID.Contains u)) ∧
    (¬ (0 ≤ (1 : Int) ∧ (1 : Int) < demoIndex.m_deletedID.R) →
      (demoIndex.DeleteIndex 1).1 = ErrorCode.VectorNotFound ∧
        (demoIndex.DeleteIndex 1).2 = demoIndex)) :=
  ⟨by decide, DeleteIndex_spec demoIndex 1 (by decide)⟩


/-! ## AddIndex -/

/-- C5: for a non-empty index with `Samples.R == Graph.rows == DeletedSet.length == begin`
and a batch of `n > 0` vectors of the right dimension: if any of the three appends (sample
store, graph, deleted set) fails, `AddIndex` returns `MemoryOverFlow`, and on return
`Samples.R`, `Graph.rows` and `DeletedSet.length` are all equal to `begin`. -/
theorem AddIndex_overflow (B : Builders) (idx : Index) (p_vectorNum p_dimension : Int)
    (p_metadataSet : Option MetadataSet) (p_withMetaIndex p_normalized : Bool)
    (hbegin : idx.GetNumSamples ≠ 0)
    (hgraph : idx.m_pGraph.R = idx.m_pSamples.R)
    (hdeleted : idx.m_deletedID.R = idx.GetNumSamples)
    (hn : 0 < p_vectorNum)
    (hdim : p_dimension = idx.GetFeatureDim) (hdim0 : p_dimension ≠ 0)
    (hfail : (idx.m_pSamples.AddBatch p_vectorNum).1 ≠ ErrorCode.Success ∨
      (idx.m_pGraph.AddBatch p_vectorNum).1 ≠ ErrorCode.Success ∨
      (idx.m_deletedID.AddBatch p_vectorNum).1 ≠ ErrorCode.Success) :
    (idx.AddIndex B (some ()) p_vectorNum p_dimension p_metadataSet p_withMetaIndex
        p_normalized).1 = ErrorCode.MemoryOverFlow ∧
      (idx.AddIndex B (some ()) p_vectorNum p_dimension p_metadataSet p_withMetaIndex
        p_normalized).2.GetNumSamples = idx.GetNumSamples ∧
      ((idx.AddIndex B (some ()) p_vectorNum p_dimension p_metadataSet p_withMetaIndex
        p_normalized).2.m_pGraph.R : Int) = idx.GetNumSamples ∧
      (idx.AddIndex B (some ()) p_vectorNum p_dimension p_metadataSet p_withMetaIndex
        p_normalized).2.m_deletedID.R = idx.GetNumSamples := by
  have hn0 : p_vectorNum ≠ 0 := by omega
  have hpre : ¬ ((some ()).isNone = true ∨ p_vectorNum = 0 ∨ p_dimension = 0) := by
    simp [hn0, hdim0]
  have hdim2 : ¬ (p_dimension ≠ idx.GetFeatureDim) := by simp [hdim]
  unfold Index.AddIndex
  rw [if_neg hpre]
  simp only [if_neg hbegin, if_neg hdim2]
  unfold Index.GetNumSamples NeighborhoodGraph.R Labelset.R at *
  have hgl : idx.m_pGraph.rows.length = idx.m_pSamples.R := hgraph
  have hdl : idx.m_deletedID.bits.length = idx.m_pSamples.R := by omega
  by_cases hs : (idx.m_pSamples.AddBatch p_vectorNum).1 = ErrorCode.Success
  · by_cases hg : (idx.m_pGraph.AddBatch p_vectorNum).1 = ErrorCode.Success
    · have hl : (idx.m_deletedID.AddBatch p_vectorNum).1 ≠ ErrorCode.Success := by
        rcases hfail with h | h | h
        · exact absurd hs h
        · exact absurd hg h
        · exact h
      have hl2 : (idx.m_deletedID.AddBatch p_vectorNum).2 = idx.m_deletedID := by
        unfold Labelset.AddBatch at hl ⊢
        split
        · rename_i hcap; rw [if_pos hcap] at hl; exact absurd rfl hl
        · rfl
      have hg2 : ((idx.m_pGraph.AddBatch p_vectorNum).2.rows.take idx.m_pSamples.R).length
          = idx.m_pSamples.R := by
        unfold NeighborhoodGraph.AddBatch
        split <;> simp [hgl]
      simp [hs, hg, hl, hl2, Dataset.SetR, NeighborhoodGraph.SetR, Labelset.SetR, hg2, hdl]
    · have hg2 : (idx.m_pGraph.AddBatch p_vectorNum).2 = idx.m_pGraph := by
        unfold NeighborhoodGraph.AddBatch at hg ⊢
        split
        · rename_i hcap; rw [if_pos hcap] at hg; exact absurd rfl hg
        · rfl
      simp [hs, hg, hg2, Dataset.SetR, NeighborhoodGraph.SetR, Labelset.SetR, hgl, hdl]
  · simp [hs, Dataset.SetR, NeighborhoodGraph.SetR, Labelset.SetR, hgl, hdl]

/-- Witness for `AddIndex_overflow`: two vectors added to `tightIndex`, where the sample
store takes them and the graph does not. -/
theorem AddIndex_overflow_witness :
    (tightIndex.GetNumSamples ≠ 0 ∧ tightIndex.m_pGraph.R = tightIndex.m_pSamples.R ∧
      tightIndex.m_deletedID.R = tightIndex.GetNumSamples ∧ (0 : Int) < 2 ∧
      (2 : Int) = tightIndex.GetFeatureDim ∧ (2 : Int) ≠ 0 ∧
      (tightIndex.m_pSamples.AddBatch 2).1 = ErrorCode.Success ∧
      (tightIndex.m_pGraph.AddBatch 2).1 ≠ ErrorCode.Success) ∧
    ((tightIndex.AddIndex demoBuilders (some ()) 2 2 none false false).1
        = ErrorCode.MemoryOverFlow ∧
      (tightIndex.AddIndex demoBuilders (some ()) 2 2 none false false).2.GetNumSamples
        = tightIndex.GetNumSamples ∧
      ((tightIndex.AddIndex demoBuilders (some ()) 2 2 none false false).2.m_pGraph.R : Int)
        = tightIndex.GetNumSamples ∧
      (tightIndex.AddIndex demoBuilders (some ()) 2 2 none false false).2.m_deletedID.R
        = tightIndex.GetNumSamples) :=
  ⟨by decide,
    AddIndex_overflow demoBuilders tightIndex 2 2 none false false (by decide) (by decide)
      (by decide) (by decide) (by decide) (by decide) (Or.inr (Or.inl (by decide)))⟩


/-! ## Load and the streaming RefineIndex -/

/-- C6, at a failing input: the streaming `RefineIndex` on an engine with metadata, given
four streams, returns `LackOfInputs` after a payload has been written to each of the four
streams. -/
theorem RefineIndex_LackOfInputs_after_writes :
    (metaIndex.RefineIndex demoBuilders (emptyStreams 4) none).map
        (fun r => (r.1, r.2.1.map (fun s => s.map (fun t => t.content.length))))
      = some (ErrorCode.LackOfInputs, [some 1, some 1, some 1, some 1]) ∧
    (emptyStreams 4).map (fun s => s.map (fun t => t.content.length))
      = [some 0, some 0, some 0, some 0] := by
  decide

/-- C7, at a failing input: `LoadIndexDataFromMemory` given exactly three blobs that load
returns `Success` with three samples loaded and leaves the deleted set as it was (here of
length 0; on `demoIndex`, with the old tombstone of id 0), whereas `LoadIndexData` with a
null fourth stream initialises an empty deleted set of length three. -/
theorem LoadIndexDataFromMemory_keeps_deleted_set :
    demoBlobs.length = 3 ∧
    (freshIndex.LoadIndexDataFromMemory demoBlobs).1 = ErrorCode.Success ∧
    (freshIndex.LoadIndexDataFromMemory demoBlobs).2.GetNumSamples = 3 ∧
    (freshIndex.LoadIndexDataFromMemory demoBlobs).2.m_deletedID.R = 0 ∧
    (demoIndex.LoadIndexDataFromMemory demoBlobs).1 = ErrorCode.Success ∧
    (demoIndex.LoadIndexDataFromMemory demoBlobs).2.m_deletedID.Contains 0 = true ∧
    (freshIndex.LoadIndexData demoStreams).1 = ErrorCode.Success ∧
    (freshIndex.LoadIndexData demoStreams).2.m_deletedID = Labelset.Initialize 3 8 := by
  decide

/-- C9, as stated, fails: with six streams, metadata present and a probe that would report
abort when asked a third time, the streaming `RefineIndex` returns `Success`, has written
the metadata, and has not asked the probe for its third answer. -/
theorem RefineIndex_metadata_without_probe :
    (metaIndex.RefineIndex demoBuilders (emptyStreams 6)
        (some { answers := [false, false, true] })).map
        (fun r => (r.1, (r.2.1.getD 4 none).map (fun t => t.content), r.2.2))
      = some (ErrorCode.Success, some [Payload.metadata { count := 2 }],
          some { answers := [true] }) := by
  decide

/-- C9, amended: in the streaming `RefineIndex` with a non-null abort probe, once the samples
have been written the probe is consulted before the trees are built and written, and again
before the graph is written; if it reports abort at either point, `RefineIndex` returns
`ExternalAbort` with the streams as they were at that point.  The probe is consulted at
most these two times: not before the deleted set and not before the metadata. -/
theorem RefineIndex_abort_points (B : Builders) (idx : Index)
    (p_indexStreams st0 : List (Option IndexStream)) (probe : AbortProbe) (c : Compaction)
    (hc : refineCompaction idx.m_deletedID.Contains idx.GetNumSamples = some c)
    (hne : c.newR ≠ 0)
    (h0 : writeAt p_indexStreams 0 (Payload.samples { idx.m_pSamples with R := c.indices.length })
      = some (ErrorCode.Success, st0)) :
    (probe.ShouldAbort.1 = true →
      idx.RefineIndex B p_indexStreams (some probe)
        = some (ErrorCode.ExternalAbort, st0, some probe.ShouldAbort.2)) ∧
    (∀ st1, probe.ShouldAbort.1 = false →
      writeAt st0 1 (Payload.trees (Index.remapLeaves
        (B.BuildTrees idx.m_pSamples (some c.indices)) c.reverseIndices))
        = some (ErrorCode.Success, st1) →
      probe.ShouldAbort.2.ShouldAbort.1 = true →
      idx.RefineIndex B p_indexStreams (some probe)
        = some (ErrorCode.ExternalAbort, st1, some probe.ShouldAbort.2.ShouldAbort.2)) ∧
    (∀ r, idx.RefineIndex B p_indexStreams (some probe) = some r →
      r.2.2 = some probe.ShouldAbort.2 ∨ r.2.2 = some probe.ShouldAbort.2.ShouldAbort.2) := by
  refine ⟨?_, ?_, ?_⟩
  · intro h1
    simp [Index.RefineIndex, hc, hne, h0, h1]
  · intro st1 h1 hw h2
    simp [Index.RefineIndex, hc, hne, h0, h1, hw, h2]
  · intro r hr
    simp only [Index.RefineIndex, hc, hne, h0, if_false] at hr
    cases h1 : probe.ShouldAbort.1 with
    | true =>
      simp [h1] at hr
      left; rw [← hr]
    | false =>
      simp [h1] at hr
      repeat' split at hr
      all_goals first
        | (cases hr; done)
        | (cases hr; left; rfl)
        | (cases hr; right; rfl)

/-- Witness for `RefineIndex_abort_points`: `metaIndex`, six empty streams and a probe that
reports abort at its second consultation. -/
theorem RefineIndex_abort_points_witness :
    (refineCompaction metaIndex.m_deletedID.Contains metaIndex.GetNumSamples
        = some demoCompaction ∧
      demoCompaction.newR ≠ 0 ∧
      writeAt (emptyStreams 6) 0
        (Payload.samples { metaIndex.m_pSamples with R := demoCompaction.indices.length })
        = some (ErrorCode.Success, demoAfterSamples)) ∧
    ((demoProbe.ShouldAbort.1 = true →
      metaIndex.RefineIndex demoBuilders (emptyStreams 6) (some demoProbe)
        = some (ErrorCode.ExternalAbort, demoAfterSamples, some demoProbe.ShouldAbort.2)) ∧
    (∀ st1, demoProbe.ShouldAbort.1 = false →
      writeAt demoAfterSamples 1 (Payload.trees (Index.remapLeaves
        (demoBuilders.BuildTrees metaIndex.m_pSamples (some demoCompaction.indices))
        demoCompaction.reverseIndices))
        = some (ErrorCode.Success, st1) →
      demoProbe.ShouldAbort.2.ShouldAbort.1 = true →
      metaIndex.RefineIndex demoBuilders (emptyStreams 6) (some demoProbe)
        = some (ErrorCode.ExternalAbort, st1, some demoProbe.ShouldAbort.2.ShouldAbort.2)) ∧
    (∀ r, metaIndex.RefineIndex demoBuilders (emptyStreams 6) (some demoProbe) = some r →
      r.2.2 = some demoProbe.ShouldAbort.2 ∨
        r.2.2 = some demoProbe.ShouldAbort.2.ShouldAbort.2)) :=
  ⟨by decide,
    RefineIndex_abort_points demoBuilders metaIndex (emptyStreams 6) demoAfterSamples demoProbe
      demoCompaction (by decide) (by decide) (by decide)⟩



/-! ## SetParameter -/

theorem assignParameter_unparsable {V : Type} (H : ParameterHelpers V) (name value : String) :
    ∀ table : List (KDTParameter V),
      (∀ d ∈ table, H.StrEqualIgnoreCase name d.RepresentStr = true →
        d.ConvertStringTo value = none) →
      assignParameter H name value table = table := by
  intro table
  induction table with
  | nil => intro _; rfl
  | cons d rest ih =>
    intro h
    unfold assignParameter
    by_cases hm : H.StrEqualIgnoreCase name d.RepresentStr = true
    · have hp := h d (List.mem_cons_self _ _) hm
      simp [hm, hp]
    · have hrest := ih (fun e he => h e (List.mem_cons_of_mem _ he))
      simp [hm, hrest]

/-- C8, as stated, fails: `MaxCheck` is registered in `demoParameters` and `abc` does not
parse into its type, yet `SetParameter` returns `Success`, not `Fail`. -/
theorem SetParameter_unparsable_returns_Success :
    (∃ d ∈ demoParameters.table,
      demoHelpers.StrEqualIgnoreCase "MaxCheck" d.RepresentStr = true ∧
        d.ConvertStringTo "abc" = none) ∧
    (SetParameter demoHelpers demoParameters (some "MaxCheck") (some "abc") none).1
      = ErrorCode.Success ∧
    (SetParameter demoHelpers demoParameters (some "MaxCheck") (some "abc") none).1
      ≠ ErrorCode.Fail := by
  refine ⟨⟨_, List.mem_cons_self _ _, by decide, by decide⟩, by decide, by decide⟩

/-- C8, amended: for every registered parameter name and every value string that cannot be
parsed into that parameter's declared type, `SetParameter(name, value, section)` returns
`Success` and leaves every registered parameter at its value; `SetParameter` returns `Fail`
exactly when the name or the value is a null pointer. -/
theorem SetParameter_unparsable {V : Type} (H : ParameterHelpers V) (st : ParameterState V)
    (name value : String) (p_section : Option String)
    (_hreg : ∃ d ∈ st.table, H.StrEqualIgnoreCase name d.RepresentStr = true)
    (hbad : ∀ d ∈ st.table, H.StrEqualIgnoreCase name d.RepresentStr = true →
      d.ConvertStringTo value = none) :
    (SetParameter H st (some name) (some value) p_section).1 = ErrorCode.Success ∧
    (SetParameter H st (some name) (some value) p_section).2.table = st.table ∧
    (∀ p_param p_value : Option String,
      (SetParameter H st p_param p_value p_section).1 = ErrorCode.Fail ↔
        (p_param = none ∨ p_value = none)) := by
  have htab := assignParameter_unparsable H name value st.table hbad
  refine ⟨?_, ?_, ?_⟩
  · simp only [SetParameter]
    split <;> rfl
  · simp only [SetParameter]
    split <;> exact htab
  · intro p_param p_value
    cases p_param with
    | none => simp [SetParameter]
    | some a =>
      cases p_value with
      | none => simp [SetParameter]
      | some b =>
        simp only [SetParameter]
        split <;> simp

/-- Witness for `SetParameter_unparsable`: `MaxCheck` set to `abc` in `demoParameters`. -/
theorem SetParameter_unparsable_witness :
    ((∃ d ∈ demoParameters.table,
        demoHelpers.StrEqualIgnoreCase "MaxCheck" d.RepresentStr = true) ∧
      (∀ d ∈ demoParameters.table,
        demoHelpers.StrEqualIgnoreCase "MaxCheck" d.RepresentStr = true →
          d.ConvertStringTo "abc" = none)) ∧
    ((SetParameter demoHelpers demoParameters (some "MaxCheck") (some "abc") none).1
        = ErrorCode.Success ∧
      (SetParameter demoHelpers demoParameters (some "MaxCheck") (some "abc") none).2.table
        = demoParameters.table ∧
      (∀ p_param p_value : Option String,
        (SetParameter demoHelpers demoParameters p_param p_value none).1 = ErrorCode.Fail ↔
          (p_param = none ∨ p_value = none))) :=
  ⟨⟨⟨_, List.mem_cons_self _ _, by decide⟩, by
      intro d hd hm
      simp only [demoParameters, List.mem_cons, List.mem_singleton, List.mem_nil_iff,
        or_false] at hd
      rcases hd with hd | hd
      · subst hd; decide
      · subst hd; exact absurd hm (by decide)⟩,
    SetParameter_unparsable demoHelpers demoParameters "MaxCheck" "abc" none
      ⟨_, List.mem_cons_self _ _, by decide⟩ (by
        intro d hd hm
        simp only [demoParameters, List.mem_cons, List.mem_singleton, List.mem_nil_iff,
          or_false] at hd
        rcases hd with hd | hd
        · subst hd; decide
        · subst hd; exact absurd hm (by decide))⟩


/-! ## Search: the collaborators -/

theorem takeBest_eq_none {α : Type} (better : α → α → Bool) :
    ∀ l : List α, takeBest better l = none ↔ l = [] := by
  intro l
  cases l with
  | nil => simp [takeBest]
  | cons x xs =>
    simp only [takeBest]
    constructor
    · intro h
      split at h
      · exact absurd h (by simp)
      · split at h <;> exact absurd h (by simp)
    · intro h; exact absurd h (by simp)

theorem takeBest_perm {α : Type} (better : α → α → Bool) :
    ∀ (l : List α) (x : α) (rest : List α),
      takeBest better l = some (x, rest) → l.Perm (x :: rest) := by
  intro l
  induction l with
  | nil => intro x rest h; simp [takeBest] at h
  | cons a as ih =>
    intro x rest h
    simp only [takeBest] at h
    split at h
    · rename_i hnone
      have has : as = [] := (takeBest_eq_none better as).1 hnone
      cases h
      rw [has]
    · rename_i y r hsome
      have hp := ih y r hsome
      split at h
      · have hx : y = x := by injection h with h; injection h
        have hr : a :: r = rest := by injection h with h; injection h
        rw [← hx, ← hr]
        exact (List.Perm.cons a hp).trans (List.Perm.swap y a r)
      · have hx : a = x := by injection h with h; injection h
        have hr : as = rest := by injection h with h; injection h
        rw [← hx, ← hr]

section SearchLemmas

variable {D : Type} [LT D] [LE D] [DecidableRel (α := D) (· < ·)] [DecidableRel (α := D) (· ≤ ·)]

end SearchLemmas

section SearchLemmas2

variable {D : Type} [LT D] [LE D] [DecidableRel (α := D) (· < ·)] [DecidableRel (α := D) (· ≤ ·)]

theorem count_cons_ite (L u : Int) (l : List Int) :
    (L :: l).count u = l.count u + (if u = L then 1 else 0) := by
  rw [List.count_cons]
  by_cases hu : u = L
  · subst hu; simp
  · have hne : (L == u) = false := by simpa using fun h => hu h.symm
    simp [hu, hne]

theorem CheckAndSet_queue (ws : WorkSpace D) (v : Int) :
    (ws.CheckAndSet v).2.m_NGQueue = ws.m_NGQueue := by
  unfold WorkSpace.CheckAndSet; split <;> rfl

theorem CheckAndSet_pending (ws : WorkSpace D) (v : Int) :
    (ws.CheckAndSet v).2.m_SPTQueue = ws.m_SPTQueue := by
  unfold WorkSpace.CheckAndSet; split <;> rfl

theorem CheckAndSet_seen (ws : WorkSpace D) (v : Int) :
    (ws.CheckAndSet v).1 = true ↔ v ∈ ws.m_hashTable := by
  unfold WorkSpace.CheckAndSet; split <;> simp [*]

theorem CheckAndSet_visited (ws : WorkSpace D) (v x : Int) :
    x ∈ (ws.CheckAndSet v).2.m_hashTable ↔ x ∈ ws.m_hashTable ∨ x = v := by
  unfold WorkSpace.CheckAndSet
  split
  · rename_i h
    constructor
    · intro hx; exact Or.inl hx
    · rintro (hx | hx)
      · exact hx
      · rw [hx]; exact h
  · simp only [List.mem_cons]
    constructor
    · rintro (hx | hx)
      · exact Or.inr hx
      · exact Or.inl hx
    · rintro (hx | hx)
      · exact Or.inr hx
      · exact Or.inl hx

theorem searchLeaves_spec (skip : Bool) (limit : Nat) :
    ∀ (pending : List Int) (q : QueryResultSet D) (ws : WorkSpace D),
      ∃ used : List Int,
        pending = used ++ (searchLeaves skip limit pending q ws).2.m_SPTQueue ∧
        (∀ u, (searchLeaves skip limit pending q ws).1.ids.count u
            ≤ q.ids.count u + used.count u) ∧
        (∀ u, (searchLeaves skip limit pending q ws).2.queued.count u
            ≤ ws.queued.count u + used.count u) ∧
        (∀ x ∈ ws.m_hashTable, x ∈ (searchLeaves skip limit pending q ws).2.m_hashTable) ∧
        (∀ x ∈ (searchLeaves skip limit pending q ws).2.m_hashTable,
            x ∈ ws.m_hashTable ∨ x ∈ used) ∧
        (searchLeaves skip limit pending q ws).2.m_NGQueue.length +
            (searchLeaves skip limit pending q ws).2.m_SPTQueue.length
          ≤ ws.m_NGQueue.length + pending.length := by
  intro pending
  induction pending with
  | nil =>
    intro q ws
    refine ⟨[], ?_, ?_, ?_, ?_, ?_, ?_⟩ <;> simp [searchLeaves, WorkSpace.queued]
  | cons L rest ih =>
    intro q ws
    by_cases hlim : ws.m_iNumberOfCheckedLeaves < limit
    · by_cases hskip : (skip && (ws.CheckAndSet L).1) = true
      · have hdef : searchLeaves skip limit (L :: rest) q ws
            = searchLeaves skip limit rest q (ws.CheckAndSet L).2 := by
          simp only [searchLeaves, hlim, hskip, if_true]
        obtain ⟨used, h1, h2, h3, h4, h5, h6⟩ := ih q (ws.CheckAndSet L).2
        rw [hdef]
        refine ⟨L :: used, ?_, ?_, ?_, ?_, ?_, ?_⟩
        · rw [List.cons_append, ← h1]
        · intro u
          have := h2 u
          rw [count_cons_ite]; omega
        · intro u
          have := h3 u
          simp only [WorkSpace.queued, CheckAndSet_queue] at this ⊢
          rw [count_cons_ite]; omega
        · intro x hx
          exact h4 x ((CheckAndSet_visited ws L x).2 (Or.inl hx))
        · intro x hx
          rcases h5 x hx with h | h
          · rcases (CheckAndSet_visited ws L x).1 h with h | h
            · exact Or.inl h
            · right; rw [h]; exact List.mem_cons_self _ _
          · right; exact List.mem_cons_of_mem _ h
        · rw [CheckAndSet_queue] at h6
          simp only [List.length_cons]; omega
      · have hdef : searchLeaves skip limit (L :: rest) q ws
            = searchLeaves skip limit rest q
                { (ws.CheckAndSet L).2 with
                  m_NGQueue := (ws.CheckAndSet L).2.m_NGQueue ++
                    [{ node := L, distance := q.distTo L }],
                  m_iNumberOfTreeCheckedLeaves := ws.m_iNumberOfTreeCheckedLeaves + 1,
                  m_iNumberOfCheckedLeaves := ws.m_iNumberOfCheckedLeaves + 1 } := by
          simp only [searchLeaves, hlim, hskip, if_true]
          rfl
        obtain ⟨used, h1, h2, h3, h4, h5, h6⟩ := ih q
          { (ws.CheckAndSet L).2 with
            m_NGQueue := (ws.CheckAndSet L).2.m_NGQueue ++
              [{ node := L, distance := q.distTo L }],
            m_iNumberOfTreeCheckedLeaves := ws.m_iNumberOfTreeCheckedLeaves + 1,
            m_iNumberOfCheckedLeaves := ws.m_iNumberOfCheckedLeaves + 1 }
        rw [hdef]
        refine ⟨L :: used, ?_, ?_, ?_, ?_, ?_, ?_⟩
        · rw [List.cons_append, ← h1]
        · intro u
          have ha := h2 u
          rw [count_cons_ite]
          omega
        · intro u
          have ha := h3 u
          simp only [WorkSpace.queued, CheckAndSet_queue, List.map_append, List.map_cons,
            List.map_nil, List.count_append] at ha ⊢
          rw [count_cons_ite] at ha ⊢
          simp only [List.count_nil] at ha ⊢
          omega
        · intro x hx
          exact h4 x ((CheckAndSet_visited ws L x).2 (Or.inl hx))
        · intro x hx
          rcases h5 x hx with h | h
          · rcases (CheckAndSet_visited ws L x).1 h with h | h
            · exact Or.inl h
            · right; rw [h]; exact List.mem_cons_self _ _
          · right; exact List.mem_cons_of_mem _ h
        · have hlen : (ws.CheckAndSet L).2.m_NGQueue.length = ws.m_NGQueue.length := by
            rw [CheckAndSet_queue]
          simp only [List.length_append, List.length_cons, List.length_nil] at h6
          simp only [List.length_cons]; omega
    · have hdef : searchLeaves skip limit (L :: rest) q ws
          = (q, { ws with m_SPTQueue := L :: rest }) := by
        simp only [searchLeaves, hlim, if_false]
      rw [hdef]
      refine ⟨[], ?_, ?_, ?_, ?_, ?_, ?_⟩ <;> simp [WorkSpace.queued]

end SearchLemmas2

theorem unvisited_mono (U v1 v2 : List Int) (h : ∀ x ∈ v1, x ∈ v2) :
    unvisited U v2 ≤ unvisited U v1 := by
  unfold unvisited
  apply Finset.card_le_card
  intro x hx
  simp only [Finset.mem_sdiff, List.mem_toFinset] at hx ⊢
  exact ⟨hx.1, fun hv => hx.2 (h x hv)⟩

theorem unvisited_mark (U v1 v2 : List Int) (nn : Int) (hU : nn ∈ U) (hnew : nn ∉ v1)
    (h : ∀ x, x ∈ v2 ↔ x ∈ v1 ∨ x = nn) : unvisited U v2 + 1 ≤ unvisited U v1 := by
  unfold unvisited
  apply Finset.card_lt_card
  rw [Finset.ssubset_iff_of_subset]
  · refine ⟨nn, ?_, ?_⟩
    · simp only [Finset.mem_sdiff, List.mem_toFinset]; exact ⟨hU, hnew⟩
    · simp only [Finset.mem_sdiff, List.mem_toFinset, not_and, not_not]
      intro _; exact (h nn).2 (Or.inr rfl)
  · intro x hx
    simp only [Finset.mem_sdiff, List.mem_toFinset] at hx ⊢
    exact ⟨hx.1, fun hv => hx.2 ((h x).2 (Or.inl hv))⟩

section SearchLemmas3

variable {D : Type} [LT D] [LE D] [DecidableRel (α := D) (· < ·)] [DecidableRel (α := D) (· ≤ ·)]

theorem expandNeighbors_spec (distTo : Int → D) (upperBound : Option D) :
    ∀ (row : List Int) (ws : WorkSpace D) (b : Bool),
      (expandNeighbors distTo upperBound row ws b).1.m_SPTQueue = ws.m_SPTQueue ∧
      (∀ x ∈ ws.m_hashTable, x ∈ (expandNeighbors distTo upperBound row ws b).1.m_hashTable) ∧
      (∀ u, u ∈ ws.m_hashTable →
        (expandNeighbors distTo upperBound row ws b).1.queued.count u ≤ ws.queued.count u) ∧
      (∀ u, u ∉ ws.m_hashTable →
        (u ∉ (expandNeighbors distTo upperBound row ws b).1.m_hashTable ∧
          (expandNeighbors distTo upperBound row ws b).1.queued.count u ≤ ws.queued.count u) ∨
        (u ∈ (expandNeighbors distTo upperBound row ws b).1.m_hashTable ∧
          (expandNeighbors distTo upperBound row ws b).1.queued.count u
            ≤ ws.queued.count u + 1)) ∧
      (∀ U : List Int, (∀ x ∈ row, x ∈ U) →
        (expandNeighbors distTo upperBound row ws b).1.m_NGQueue.length +
            unvisited U (expandNeighbors distTo upperBound row ws b).1.m_hashTable
          ≤ ws.m_NGQueue.length + unvisited U ws.m_hashTable) := by
  intro row
  induction row with
  | nil =>
    intro ws b
    refine ⟨rfl, fun x hx => hx, fun u _ => le_refl _, fun u hu => Or.inl ⟨hu, le_refl _⟩,
      fun U _ => le_refl _⟩
  | cons nn rest ih =>
    intro ws b
    by_cases hneg : nn < 0
    · have hdef : expandNeighbors distTo upperBound (nn :: rest) ws b = (ws, b) := by
        simp only [expandNeighbors, hneg, if_true]
      rw [hdef]
      refine ⟨rfl, fun x hx => hx, fun u _ => le_refl _, fun u hu => Or.inl ⟨hu, le_refl _⟩,
        fun U _ => le_refl _⟩
    · by_cases hseen : (ws.CheckAndSet nn).1 = true
      · have hdef : expandNeighbors distTo upperBound (nn :: rest) ws b
            = expandNeighbors distTo upperBound rest (ws.CheckAndSet nn).2 b := by
          simp only [expandNeighbors, hneg, hseen, if_true, if_false]
        have hmem : nn ∈ ws.m_hashTable := (CheckAndSet_seen ws nn).1 hseen
        have hvis : ∀ x, x ∈ (ws.CheckAndSet nn).2.m_hashTable ↔ x ∈ ws.m_hashTable := by
          intro x
          rw [CheckAndSet_visited]
          constructor
          · rintro (h | h)
            · exact h
            · rw [h]; exact hmem
          · intro h; exact Or.inl h
        obtain ⟨h1, h2, h3, h4, h5⟩ := ih (ws.CheckAndSet nn).2 b
        rw [hdef]
        refine ⟨?_, ?_, ?_, ?_, ?_⟩
        · rw [h1, CheckAndSet_pending]
        · intro x hx; exact h2 x ((hvis x).2 hx)
        · intro u hu
          have := h3 u ((hvis u).2 hu)
          simp only [WorkSpace.queued, CheckAndSet_queue] at this ⊢
          exact this
        · intro u hu
          have := h4 u (fun h => hu ((hvis u).1 h))
          simp only [WorkSpace.queued, CheckAndSet_queue] at this ⊢
          exact this
        · intro U hU
          have ha := h5 U (fun x hx => hU x (List.mem_cons_of_mem _ hx))
          have hb : unvisited U (ws.CheckAndSet nn).2.m_hashTable ≤ unvisited U ws.m_hashTable :=
            unvisited_mono _ _ _ (fun x hx => (hvis x).2 hx)
          rw [CheckAndSet_queue] at ha
          omega
      · have hdef : expandNeighbors distTo upperBound (nn :: rest) ws b
            = expandNeighbors distTo upperBound rest
                { (ws.CheckAndSet nn).2 with
                  m_iNumberOfCheckedLeaves := ws.m_iNumberOfCheckedLeaves + 1,
                  m_NGQueue := (ws.CheckAndSet nn).2.m_NGQueue ++
                    [{ node := nn, distance := distTo nn }] }
                (if withinBound (distTo nn) upperBound then false else b) := by
          simp only [expandNeighbors, hneg, hseen, if_false]
          rfl
        have hnew : nn ∉ ws.m_hashTable := fun h => hseen ((CheckAndSet_seen ws nn).2 h)
        obtain ⟨h1, h2, h3, h4, h5⟩ := ih
          { (ws.CheckAndSet nn).2 with
            m_iNumberOfCheckedLeaves := ws.m_iNumberOfCheckedLeaves + 1,
            m_NGQueue := (ws.CheckAndSet nn).2.m_NGQueue ++
              [{ node := nn, distance := distTo nn }] }
          (if withinBound (distTo nn) upperBound then false else b)
        rw [hdef]
        have hq : ∀ u, (List.map (fun p => p.node)
            ((ws.CheckAndSet nn).2.m_NGQueue ++ [{ node := nn, distance := distTo nn }])).count u
            = (ws.m_NGQueue.map (fun p => p.node)).count u + (if u = nn then 1 else 0) := by
          intro u
          simp only [CheckAndSet_queue, List.map_append, List.map_cons, List.map_nil,
            List.count_append]
          rw [count_cons_ite]
          simp only [List.count_nil]
          omega
        refine ⟨?_, ?_, ?_, ?_, ?_⟩
        · rw [h1]; exact CheckAndSet_pending ws nn
        · intro x hx
          exact h2 x ((CheckAndSet_visited ws nn x).2 (Or.inl hx))
        · intro u hu
          have hne : u ≠ nn := fun h => hnew (h ▸ hu)
          have := h3 u ((CheckAndSet_visited ws nn u).2 (Or.inl hu))
          simp only [WorkSpace.queued] at this ⊢
          rw [hq u] at this
          simp only [hne, if_false, Nat.add_zero] at this
          exact this
        · intro u hu
          by_cases hun : u = nn
          · right
            have hvis : u ∈ (ws.CheckAndSet nn).2.m_hashTable :=
              (CheckAndSet_visited ws nn u).2 (Or.inr hun)
            have := h3 u hvis
            simp only [WorkSpace.queued] at this ⊢
            rw [hq u] at this
            simp only [hun, if_true] at this ⊢
            exact ⟨h2 nn (hun ▸ hvis), this⟩
          · have hnv : u ∉ (ws.CheckAndSet nn).2.m_hashTable := by
              intro h
              rcases (CheckAndSet_visited ws nn u).1 h with h | h
              · exact hu h
              · exact hun h
            have := h4 u hnv
            simp only [WorkSpace.queued] at this ⊢
            rw [hq u] at this
            simp only [hun, if_false, Nat.add_zero] at this
            exact this
        · intro U hU
          have ha := h5 U (fun x hx => hU x (List.mem_cons_of_mem _ hx))
          have hb := unvisited_mark U ws.m_hashTable (ws.CheckAndSet nn).2.m_hashTable nn
            (hU nn (List.mem_cons_self _ _)) hnew (CheckAndSet_visited ws nn)
          have hlen : (ws.CheckAndSet nn).2.m_NGQueue.length = ws.m_NGQueue.length := by
            rw [CheckAndSet_queue]
          simp only [List.length_append, List.length_cons, List.length_nil] at ha ⊢
          omega

end SearchLemmas3

section SearchLemmas4

variable {D : Type} [LT D] [LE D] [DecidableRel (α := D) (· < ·)] [DecidableRel (α := D) (· ≤ ·)]

theorem searchStep_cases (idx : Index) (cd : Bool) (gnode : NodeDistPair D)
    (q : QueryResultSet D) (ws : WorkSpace D) :
    (searchStep idx cd gnode q ws).2 = ((addPopped idx cd gnode q).2, ws) ∨
    (searchStep idx cd gnode q ws).2 =
      ((addPopped idx cd gnode q).2, propagate idx gnode (addPopped idx cd gnode q).2 ws) ∨
    (searchStep idx cd gnode q ws).2 =
      idx.m_pTrees.SearchTrees (addPopped idx cd gnode q).2
        (propagate idx gnode (addPopped idx cd gnode q).2 ws)
        (idx.m_iNumberOfOtherDynamicPivots +
          (propagate idx gnode (addPopped idx cd gnode q).2 ws).m_iNumberOfCheckedLeaves) := by
  unfold searchStep
  split
  · exact Or.inl rfl
  · split
    · split
      · exact Or.inr (Or.inr rfl)
      · split
        · exact Or.inr (Or.inl rfl)
        · exact Or.inr (Or.inl rfl)
    · exact Or.inr (Or.inl rfl)

theorem searchStep_preserves (idx : Index) (cd : Bool) (gnode : NodeDistPair D)
    (q : QueryResultSet D) (ws : WorkSpace D) (P : QueryResultSet D → WorkSpace D → Prop)
    (hadd : P (addPopped idx cd gnode q).2 ws)
    (hprop : ∀ q1, P q1 ws → P q1 (propagate idx gnode q1 ws))
    (hseed : ∀ q1 ws1 limit, P q1 ws1 →
      P (idx.m_pTrees.SearchTrees q1 ws1 limit).1 (idx.m_pTrees.SearchTrees q1 ws1 limit).2) :
    P (searchStep idx cd gnode q ws).2.1 (searchStep idx cd gnode q ws).2.2 := by
  rcases searchStep_cases idx cd gnode q ws with h | h | h
  · rw [h]; exact hadd
  · rw [h]; exact hprop _ hadd
  · rw [h]; exact hseed _ _ _ (hprop _ hadd)

theorem row_subset_neighbours (g : NeighborhoodGraph) (v : Int) :
    ∀ x ∈ g.row v, x ∈ g.neighbours := by
  intro x hx
  unfold NeighborhoodGraph.row at hx
  split at hx
  · have hx2 := List.mem_of_mem_take hx
    unfold NeighborhoodGraph.neighbours
    rw [List.mem_flatten]
    by_cases hlt : v.toNat < g.rows.length
    · refine ⟨g.rows[v.toNat], List.getElem_mem _, ?_⟩
      simpa [List.getD_eq_getElem?_getD, List.getElem?_eq_getElem hlt] using hx2
    · simp [List.getD_eq_getElem?_getD, List.getElem?_eq_none (Nat.le_of_not_lt hlt)] at hx2
  · simp at hx

theorem propagate_measure (idx : Index) (gnode : NodeDistPair D) (q : QueryResultSet D)
    (ws : WorkSpace D) : searchMeasure idx (propagate idx gnode q ws) ≤ searchMeasure idx ws := by
  obtain ⟨h1, _, _, _, h5⟩ := expandNeighbors_spec q.distTo
    (upperBoundOf q.worstDist gnode.distance) (idx.m_pGraph.row gnode.node) ws true
  have h := h5 idx.m_pGraph.neighbours (row_subset_neighbours idx.m_pGraph gnode.node)
  unfold searchMeasure propagate notePropagation
  simp only
  rw [h1]
  omega

theorem SearchTrees_measure (idx : Index) (q : QueryResultSet D) (ws : WorkSpace D)
    (limit : Nat) :
    searchMeasure idx (idx.m_pTrees.SearchTrees q ws limit).2 ≤ searchMeasure idx ws := by
  obtain ⟨used, _, _, _, h4, _, h6⟩ :=
    searchLeaves_spec idx.m_pTrees.m_bSkipVisited limit ws.m_SPTQueue q ws
  have hv := unvisited_mono idx.m_pGraph.neighbours _ _ h4
  unfold searchMeasure KDTree.SearchTrees
  omega

theorem searchStep_measure (idx : Index) (cd : Bool) (gnode : NodeDistPair D)
    (q : QueryResultSet D) (ws : WorkSpace D) :
    searchMeasure idx (searchStep idx cd gnode q ws).2.2 ≤ searchMeasure idx ws :=
  searchStep_preserves idx cd gnode q ws (fun _ w => searchMeasure idx w ≤ searchMeasure idx ws)
    (le_refl _)
    (fun q1 _ => propagate_measure idx gnode q1 ws)
    (fun q1 ws1 limit h => le_trans (SearchTrees_measure idx q1 ws1 limit) h)

theorem searchLoop_terminates (idx : Index) (cd : Bool) :
    ∀ (fuel : Nat) (q : QueryResultSet D) (ws : WorkSpace D),
      searchMeasure idx ws ≤ fuel → ∃ r, searchLoop idx cd fuel q ws = some r := by
  intro fuel
  induction fuel with
  | zero =>
    intro q ws h
    have hq : ws.m_NGQueue = [] := by
      unfold searchMeasure at h
      exact List.length_eq_zero.1 (by omega)
    refine ⟨(q, ws), ?_⟩
    simp [searchLoop, hq, takeBest]
  | succ n ih =>
    intro q ws h
    simp only [searchLoop]
    split
    · exact ⟨_, rfl⟩
    · rename_i gnode rest hpop
      have hlen := (takeBest_perm _ _ _ _ hpop).length_eq
      have hm := searchStep_measure idx cd gnode q { ws with m_NGQueue := rest }
      have hm2 : searchMeasure idx { ws with m_NGQueue := rest } + 1 = searchMeasure idx ws := by
        unfold searchMeasure
        simp only [List.length_cons] at hlen
        simp only
        omega
      split
      · exact ih _ _ (by omega)
      · exact ⟨_, rfl⟩

end SearchLemmas4

section SearchLemmas5

variable {D : Type} [LT D] [LE D] [DecidableRel (α := D) (· < ·)] [DecidableRel (α := D) (· ≤ ·)]

theorem propagate_pending (idx : Index) (gnode : NodeDistPair D) (q : QueryResultSet D)
    (ws : WorkSpace D) : (propagate idx gnode q ws).m_SPTQueue = ws.m_SPTQueue := by
  obtain ⟨h1, _⟩ := expandNeighbors_spec q.distTo
    (upperBoundOf q.worstDist gnode.distance) (idx.m_pGraph.row gnode.node) ws true
  unfold propagate notePropagation
  exact h1

end SearchLemmas5

section SearchTheorems

variable {D : Type} [LT D] [LE D] [DecidableRel (α := D) (· < ·)] [DecidableRel (α := D) (· ≤ ·)]

end SearchTheorems

/-- C11, at a failing input: `LoadIndexData` given four streams of which the first is null
returns `Success` without running any loader and leaves the engine as it was; with a null
second stream it returns `Success` with only the samples loaded, and with a null third
stream with only samples and trees loaded.  In none of these runs is the workspace pool
constructed. -/
theorem LoadIndexData_null_stream_Success :
    (nullSamplesStreams.length = 4 ∧ nullSamplesStreams.getD 0 none = none ∧
      (freshIndex.LoadIndexData nullSamplesStreams).1 = ErrorCode.Success ∧
      (freshIndex.LoadIndexData nullSamplesStreams).2 = freshIndex) ∧
    (nullTreesStreams.length = 4 ∧ nullTreesStreams.getD 1 none = none ∧
      (freshIndex.LoadIndexData nullTreesStreams).1 = ErrorCode.Success ∧
      (freshIndex.LoadIndexData nullTreesStreams).2
        = { freshIndex with m_pSamples := demoIndex.m_pSamples }) ∧
    (nullGraphStreams.length = 4 ∧ nullGraphStreams.getD 2 none = none ∧
      (freshIndex.LoadIndexData nullGraphStreams).1 = ErrorCode.Success ∧
      (freshIndex.LoadIndexData nullGraphStreams).2
        = { freshIndex with m_pSamples := demoIndex.m_pSamples,
                            m_pTrees := demoIndex.m_pTrees }) := by
  decide


/-! ## Compaction: the indices it touches -/

theorem shrinkTailTrace_fst (Contains : Int → Bool) (i : Int) :
    ∀ (fuel : Nat) (newR : Int),
      (shrinkTailTrace Contains i fuel newR).map (fun r => r.1)
        = shrinkTail Contains i fuel newR := by
  intro fuel
  induction fuel with
  | zero =>
    intro newR
    simp only [shrinkTailTrace, shrinkTail]
    split <;> rfl
  | succ n ih =>
    intro newR
    simp only [shrinkTailTrace, shrinkTail]
    split
    · rw [Option.map_map]
      exact ih (newR - 1)
    · rfl

theorem compactTrace_fst (Contains : Int → Bool) :
    ∀ (fuel : Nat) (i : Int) (c : Compaction) (t : CompactionTrace),
      (compactTrace Contains fuel i c t).map (fun r => r.1) = compactLoop Contains fuel i c := by
  intro fuel
  induction fuel with
  | zero =>
    intro i c t
    simp only [compactTrace, compactLoop]
    split <;> rfl
  | succ n ih =>
    intro i c t
    simp only [compactTrace, compactLoop]
    split
    · split
      · exact ih _ _ _
      · have hs := shrinkTailTrace_fst Contains i (n + 1) c.newR
        cases htr : shrinkTailTrace Contains i (n + 1) c.newR with
        | none =>
          rw [htr] at hs
          simp only [Option.map_none'] at hs
          rw [← hs]
          rfl
        | some p =>
          rw [htr] at hs
          simp only [Option.map_some'] at hs
          rw [← hs]
          simp only
          split
          · rfl
          · exact ih _ _ _
    · rfl

theorem shrinkTailTrace_bounds (Contains : Int → Bool) (i : Int) :
    ∀ (fuel : Nat) (newR r : Int) (seen : List Int), i ≤ newR →
      shrinkTailTrace Contains i fuel newR = some (r, seen) →
      i ≤ r ∧ r ≤ newR ∧ ∀ x ∈ seen, r - 1 ≤ x ∧ x ≤ newR - 1 := by
  intro fuel
  induction fuel with
  | zero =>
    intro newR r seen hle h
    simp only [shrinkTailTrace] at h
    split at h
    · exact absurd h (by simp)
    · have h1 : newR = r := by injection h with h; injection h
      have h2 : [newR - 1] = seen := by injection h with h; injection h
      subst h1; subst h2
      refine ⟨hle, le_refl _, ?_⟩
      intro x hx
      simp only [List.mem_singleton] at hx
      omega
  | succ n ih =>
    intro newR r seen hle h
    simp only [shrinkTailTrace] at h
    split at h
    · rename_i hc
      have hgt : newR > i := by
        simp only [Bool.and_eq_true, decide_eq_true_eq] at hc; exact hc.2
      cases htr : shrinkTailTrace Contains i n (newR - 1) with
      | none => rw [htr] at h; exact absurd h (by simp)
      | some p =>
        rw [htr] at h
        simp only [Option.map_some'] at h
        have h1 : p.1 = r := by injection h with h; injection h
        have h2 : (newR - 1) :: p.2 = seen := by injection h with h; injection h
        obtain ⟨b1, b2, b3⟩ := ih (newR - 1) p.1 p.2 (by omega) (by rw [htr])
        subst h1; subst h2
        refine ⟨b1, by omega, ?_⟩
        intro x hx
        simp only [List.mem_cons] at hx
        rcases hx with hx | hx
        · omega
        · have := b3 x hx; omega
    · have h1 : newR = r := by injection h with h; injection h
      have h2 : [newR - 1] = seen := by injection h with h; injection h
      subst h1; subst h2
      refine ⟨hle, le_refl _, ?_⟩
      intro x hx
      simp only [List.mem_singleton] at hx
      omega

theorem compactTrace_bounds (Contains : Int → Bool) (R : Nat) :
    ∀ (fuel : Nat) (i : Int) (c : Compaction) (t : CompactionTrace)
      (r : Compaction × CompactionTrace),
      0 ≤ i → c.newR ≤ R →
      (∀ x ∈ t.contains, 0 ≤ x ∧ x < R) → (∀ x ∈ t.writes, 0 ≤ x ∧ x < R) →
      compactTrace Contains fuel i c t = some r →
      (∀ x ∈ r.2.writes, 0 ≤ x ∧ x < R) ∧
      (∀ x ∈ r.2.contains, x < R ∧ (0 ≤ x ∨ (x = -1 ∧ r.1.newR = 0))) := by
  intro fuel
  induction fuel with
  | zero =>
    intro i c t r h0 h2 hc hw h
    simp only [compactTrace] at h
    split at h
    · exact absurd h (by simp)
    · cases h
      exact ⟨hw, fun x hx => ⟨(hc x hx).2, Or.inl (hc x hx).1⟩⟩
  | succ n ih =>
    intro i c t r h0 h2 hc hw h
    simp only [compactTrace] at h
    split at h
    · rename_i hlt
      split at h
      · refine ih (i + 1)
          { c with indices := c.indices ++ [i],
                   reverseIndices := c.reverseIndices.set i.toNat i }
          { contains := t.contains ++ [i], writes := t.writes ++ [i] } r
          (by omega) h2 ?_ ?_ h
        · intro x hx
          simp only [List.mem_append, List.mem_singleton] at hx
          rcases hx with hx | hx
          · exact hc x hx
          · omega
        · intro x hx
          simp only [List.mem_append, List.mem_singleton] at hx
          rcases hx with hx | hx
          · exact hw x hx
          · omega
      · cases htr : shrinkTailTrace Contains i (n + 1) c.newR with
        | none => rw [htr] at h; exact absurd h (by simp)
        | some p =>
          rw [htr] at h
          simp only at h
          obtain ⟨b1, b2, b3⟩ := shrinkTailTrace_bounds Contains i (n + 1) c.newR p.1 p.2
            (le_of_lt hlt) (by rw [htr])
          split at h
          · rename_i hbreak
            cases h
            refine ⟨hw, ?_⟩
            intro x hx
            simp only [List.mem_append, List.mem_singleton] at hx
            rcases hx with (hx | hx) | hx
            · exact ⟨(hc x hx).2, Or.inl (hc x hx).1⟩
            · exact ⟨by omega, Or.inl (by omega)⟩
            · have := b3 x hx
              refine ⟨by omega, ?_⟩
              by_cases hx0 : 0 ≤ x
              · exact Or.inl hx0
              · right
                simp only
                omega
          · rename_i hcont
            refine ih (i + 1)
              { indices := c.indices ++ [p.1 - 1],
                reverseIndices := c.reverseIndices.set (p.1 - 1).toNat i,
                newR := p.1 - 1 }
              { contains := t.contains ++ [i] ++ p.2, writes := t.writes ++ [p.1 - 1] } r
              (by omega) (by simp only; omega) ?_ ?_ h
            · intro x hx
              simp only [List.mem_append, List.mem_singleton] at hx
              rcases hx with (hx | hx) | hx
              · exact hc x hx
              · omega
              · have := b3 x hx; omega
            · intro x hx
              simp only [List.mem_append, List.mem_singleton] at hx
              rcases hx with hx | hx
              · exact hw x hx
              · omega
    · cases h
      exact ⟨hw, fun x hx => ⟨(hc x hx).2, Or.inl (hc x hx).1⟩⟩

theorem refineTrace_bounds (Contains : Int → Bool) (R : Nat) :
    ∃ c t, refineTrace Contains (R : Int) = some (c, t) ∧
      refineCompaction Contains (R : Int) = some c ∧
      (∀ x ∈ t.writes, 0 ≤ x ∧ x < R) ∧
      (∀ x ∈ t.contains, x < R ∧ (0 ≤ x ∨ (x = -1 ∧ c.newR = 0))) := by
  obtain ⟨c, hc, _⟩ := refineCompaction_spec Contains R
  have hfst := compactTrace_fst Contains (R : Int).toNat 0
    { indices := [], reverseIndices := List.replicate (R : Int).toNat 0, newR := (R : Int) }
    { contains := [], writes := [] }
  unfold refineCompaction at hc
  rw [hc] at hfst
  cases htr : compactTrace Contains (R : Int).toNat 0
      { indices := [], reverseIndices := List.replicate (R : Int).toNat 0, newR := (R : Int) }
      { contains := [], writes := [] } with
  | none => rw [htr] at hfst; exact absurd hfst (by simp)
  | some p =>
    rw [htr] at hfst
    simp only [Option.map_some', Option.some.injEq] at hfst
    have hb := compactTrace_bounds Contains R _ 0 _ _ p (le_refl _) (le_refl _)
      (by simp) (by simp) htr
    refine ⟨p.1, p.2, htr, ?_, hb.1, hb.2⟩
    unfold refineCompaction
    rw [hc, hfst]

/-- C12, at a failing input: on the engine `allDeletedIndex` (three rows, all tombstoned) the
compaction loop of `RefineIndex` passes the indices 0, 2, 1, 0 and then -1 to
`m_deletedID.Contains`; -1 is not in `[0, R)`.  It writes `reverseIndices` nowhere. -/
theorem refineTrace_all_deleted :
    allDeletedIndex.GetNumSamples = 3 ∧
    (∀ v : Int, 0 ≤ v → v < 3 → allDeletedIndex.m_deletedID.Contains v = true) ∧
    (refineTrace allDeletedIndex.m_deletedID.Contains allDeletedIndex.GetNumSamples).map
        (fun r => r.2)
      = some { contains := [0, 2, 1, 0, -1], writes := [] } ∧
    ¬ (0 ≤ (-1 : Int) ∧ (-1 : Int) < allDeletedIndex.GetNumSamples) := by
  refine ⟨by decide, ?_, by decide, by decide⟩
  intro v h0 h3
  have hv : v = 0 ∨ v = 1 ∨ v = 2 := by omega
  rcases hv with h | h | h <;> subst h <;> decide


/-! ## Search: every id is popped at most once -/

section PopLemmas

variable {D : Type} [LT D] [LE D] [DecidableRel (α := D) (· < ·)] [DecidableRel (α := D) (· ≤ ·)]

theorem searchTrace_snd (idx : Index) (cd : Bool) :
    ∀ (fuel : Nat) (q : QueryResultSet D) (ws : WorkSpace D),
      (searchTrace idx cd fuel q ws).map (fun r => r.2) = searchLoop idx cd fuel q ws := by
  intro fuel
  induction fuel with
  | zero =>
    intro q ws
    simp only [searchTrace, searchLoop]
    split <;> rfl
  | succ n ih =>
    intro q ws
    simp only [searchTrace, searchLoop]
    split
    · rfl
    · split
      · rw [Option.map_map]
        exact ih _ _
      · rfl

theorem queued_push (ws : WorkSpace D) (nn : Int) (d : D) (v : Int) :
    v ∈ (ws.m_NGQueue ++ [({ node := nn, distance := d } : NodeDistPair D)]).map
        (fun p : NodeDistPair D => p.node)
      ↔ v ∈ ws.queued ∨ v = nn := by
  simp [WorkSpace.queued]

theorem nodup_push (ws : WorkSpace D) (nn : Int) (d : D)
    (hn : ws.queued.Nodup) (hnew : nn ∉ ws.queued) :
    ((ws.m_NGQueue ++ [({ node := nn, distance := d } : NodeDistPair D)]).map
      (fun p : NodeDistPair D => p.node)).Nodup := by
  rw [List.map_append, List.nodup_append]
  refine ⟨hn, by simp, ?_⟩
  intro a ha hb
  simp only [List.map_cons, List.map_nil, List.mem_singleton] at hb
  subst hb
  exact hnew ha

theorem expandNeighbors_pop (distTo : Int → D) (upperBound : Option D) :
    ∀ (row : List Int) (ws : WorkSpace D) (b : Bool),
      ((ws.queued.Nodup ∧ ∀ v ∈ ws.queued, v ∈ ws.m_hashTable) →
        ((expandNeighbors distTo upperBound row ws b).1.queued.Nodup ∧
          ∀ v ∈ (expandNeighbors distTo upperBound row ws b).1.queued,
            v ∈ (expandNeighbors distTo upperBound row ws b).1.m_hashTable)) ∧
      Grows ws (expandNeighbors distTo upperBound row ws b).1 ∧
      (∀ v ∈ (expandNeighbors distTo upperBound row ws b).1.queued,
        v ∈ ws.queued ∨ (v ∈ row ∧ 0 ≤ v)) := by
  intro row
  induction row with
  | nil =>
    intro ws b
    exact ⟨fun h => h, ⟨fun v hv => Or.inl hv, fun v hv => hv⟩, fun v hv => Or.inl hv⟩
  | cons nn rest ih =>
    intro ws b
    by_cases hneg : nn < 0
    · have hdef : expandNeighbors distTo upperBound (nn :: rest) ws b = (ws, b) := by
        simp only [expandNeighbors, hneg, if_true]
      rw [hdef]
      exact ⟨fun h => h, ⟨fun v hv => Or.inl hv, fun v hv => hv⟩, fun v hv => Or.inl hv⟩
    · by_cases hseen : (ws.CheckAndSet nn).1 = true
      · have hdef : expandNeighbors distTo upperBound (nn :: rest) ws b
            = expandNeighbors distTo upperBound rest (ws.CheckAndSet nn).2 b := by
          simp only [expandNeighbors, hneg, hseen, if_true, if_false]
        have hmem : nn ∈ ws.m_hashTable := (CheckAndSet_seen ws nn).1 hseen
        have hsame : (ws.CheckAndSet nn).2 = ws := by
          unfold WorkSpace.CheckAndSet; rw [if_pos hmem]
        rw [hdef, hsame]
        obtain ⟨h1, h2, h3⟩ := ih ws b
        refine ⟨h1, h2, ?_⟩
        intro v hv
        rcases h3 v hv with h | ⟨h, h0⟩
        · exact Or.inl h
        · exact Or.inr ⟨List.mem_cons_of_mem _ h, h0⟩
      · have hdef : expandNeighbors distTo upperBound (nn :: rest) ws b
            = expandNeighbors distTo upperBound rest
                { (ws.CheckAndSet nn).2 with
                  m_iNumberOfCheckedLeaves := ws.m_iNumberOfCheckedLeaves + 1,
                  m_NGQueue := (ws.CheckAndSet nn).2.m_NGQueue ++
                    [{ node := nn, distance := distTo nn }] }
                (if withinBound (distTo nn) upperBound then false else b) := by
          simp only [expandNeighbors, hneg, hseen, if_false]
          rfl
        have hnew : nn ∉ ws.m_hashTable := fun h => hseen ((CheckAndSet_seen ws nn).2 h)
        obtain ⟨h1, ⟨h2a, h2b⟩, h3⟩ := ih
          { (ws.CheckAndSet nn).2 with
            m_iNumberOfCheckedLeaves := ws.m_iNumberOfCheckedLeaves + 1,
            m_NGQueue := (ws.CheckAndSet nn).2.m_NGQueue ++
              [{ node := nn, distance := distTo nn }] }
          (if withinBound (distTo nn) upperBound then false else b)
        rw [hdef]
        have hq : ∀ v, v ∈ (List.map (fun p : NodeDistPair D => p.node)
            ((ws.CheckAndSet nn).2.m_NGQueue ++ [{ node := nn, distance := distTo nn }]))
            ↔ v ∈ ws.queued ∨ v = nn := by
          intro v
          rw [CheckAndSet_queue]
          exact queued_push ws nn (distTo nn) v
        refine ⟨?_, ⟨?_, ?_⟩, ?_⟩
        · rintro ⟨hn, hv⟩
          apply h1
          constructor
          · show (List.map (fun p : NodeDistPair D => p.node) _).Nodup
            rw [CheckAndSet_queue]
            exact nodup_push ws nn (distTo nn) hn (fun h => hnew (hv nn h))
          · intro v hvq
            have hvq2 : v ∈ ws.queued ∨ v = nn := (hq v).1 hvq
            show v ∈ (ws.CheckAndSet nn).2.m_hashTable
            rcases hvq2 with h | h
            · exact (CheckAndSet_visited ws nn v).2 (Or.inl (hv v h))
            · exact (CheckAndSet_visited ws nn v).2 (Or.inr h)
        · intro v hvq
          rcases h2a v hvq with h | h
          · rcases (hq v).1 h with h | h
            · exact Or.inl h
            · right; rw [h]; exact hnew
          · right
            intro hin
            exact h ((CheckAndSet_visited ws nn v).2 (Or.inl hin))
        · intro v hv
          exact h2b v ((CheckAndSet_visited ws nn v).2 (Or.inl hv))
        · intro v hvq
          rcases h3 v hvq with h | ⟨h, h0⟩
          · rcases (hq v).1 h with h | h
            · exact Or.inl h
            · right; rw [h]; exact ⟨List.mem_cons_self _ _, by omega⟩
          · exact Or.inr ⟨List.mem_cons_of_mem _ h, h0⟩

theorem searchLeaves_pop (limit : Nat) :
    ∀ (pending : List Int) (q : QueryResultSet D) (ws : WorkSpace D),
      ((ws.queued.Nodup ∧ ∀ v ∈ ws.queued, v ∈ ws.m_hashTable) →
        ((searchLeaves true limit pending q ws).2.queued.Nodup ∧
          ∀ v ∈ (searchLeaves true limit pending q ws).2.queued,
            v ∈ (searchLeaves true limit pending q ws).2.m_hashTable)) ∧
      Grows ws (searchLeaves true limit pending q ws).2 ∧
      (∀ v ∈ (searchLeaves true limit pending q ws).2.queued,
        v ∈ ws.queued ∨ v ∈ pending) := by
  intro pending
  induction pending with
  | nil =>
    intro q ws
    exact ⟨fun h => h, ⟨fun v hv => Or.inl hv, fun v hv => hv⟩, fun v hv => Or.inl hv⟩
  | cons L rest ih =>
    intro q ws
    by_cases hlim : ws.m_iNumberOfCheckedLeaves < limit
    · by_cases hseen : (ws.CheckAndSet L).1 = true
      · have hdef : searchLeaves true limit (L :: rest) q ws
            = searchLeaves true limit rest q (ws.CheckAndSet L).2 := by
          simp only [searchLeaves, hlim, hseen, if_true, Bool.and_self]
        have hmem : L ∈ ws.m_hashTable := (CheckAndSet_seen ws L).1 hseen
        have hsame : (ws.CheckAndSet L).2 = ws := by
          unfold WorkSpace.CheckAndSet; rw [if_pos hmem]
        rw [hdef, hsame]
        obtain ⟨h1, h2, h3⟩ := ih q ws
        refine ⟨h1, h2, ?_⟩
        intro v hv
        rcases h3 v hv with h | h
        · exact Or.inl h
        · exact Or.inr (List.mem_cons_of_mem _ h)
      · have hdef : searchLeaves true limit (L :: rest) q ws
            = searchLeaves true limit rest q
                { (ws.CheckAndSet L).2 with
                  m_NGQueue := (ws.CheckAndSet L).2.m_NGQueue ++
                    [{ node := L, distance := q.distTo L }],
                  m_iNumberOfTreeCheckedLeaves := ws.m_iNumberOfTreeCheckedLeaves + 1,
                  m_iNumberOfCheckedLeaves := ws.m_iNumberOfCheckedLeaves + 1 } := by
          simp only [searchLeaves, hlim, hseen, if_true, Bool.and_false, Bool.true_and]
          rfl
        have hnew : L ∉ ws.m_hashTable := fun hm => hseen ((CheckAndSet_seen ws L).2 hm)
        obtain ⟨h1, ⟨h2a, h2b⟩, h3⟩ := ih q
          { (ws.CheckAndSet L).2 with
            m_NGQueue := (ws.CheckAndSet L).2.m_NGQueue ++
              [{ node := L, distance := q.distTo L }],
            m_iNumberOfTreeCheckedLeaves := ws.m_iNumberOfTreeCheckedLeaves + 1,
            m_iNumberOfCheckedLeaves := ws.m_iNumberOfCheckedLeaves + 1 }
        rw [hdef]
        have hq : ∀ v, v ∈ (List.map (fun p : NodeDistPair D => p.node)
            ((ws.CheckAndSet L).2.m_NGQueue ++ [{ node := L, distance := q.distTo L }]))
            ↔ v ∈ ws.queued ∨ v = L := by
          intro v
          rw [CheckAndSet_queue]
          exact queued_push ws L (q.distTo L) v
        refine ⟨?_, ⟨?_, ?_⟩, ?_⟩
        · rintro ⟨hn, hv⟩
          apply h1
          constructor
          · show (List.map (fun p : NodeDistPair D => p.node) _).Nodup
            rw [CheckAndSet_queue]
            exact nodup_push ws L (q.distTo L) hn (fun h => hnew (hv L h))
          · intro v hvq
            have hvq2 : v ∈ ws.queued ∨ v = L := (hq v).1 hvq
            show v ∈ (ws.CheckAndSet L).2.m_hashTable
            rcases hvq2 with h | h
            · exact (CheckAndSet_visited ws L v).2 (Or.inl (hv v h))
            · exact (CheckAndSet_visited ws L v).2 (Or.inr h)
        · intro v hvq
          rcases h2a v hvq with h | h
          · rcases (hq v).1 h with h | h
            · exact Or.inl h
            · right; rw [h]; exact hnew
          · right
            intro hin
            exact h ((CheckAndSet_visited ws L v).2 (Or.inl hin))
        · intro v hv
          exact h2b v ((CheckAndSet_visited ws L v).2 (Or.inl hv))
        · intro v hvq
          rcases h3 v hvq with h | h
          · rcases (hq v).1 h with h | h
            · exact Or.inl h
            · right; rw [h]; exact List.mem_cons_self _ _
          · exact Or.inr (List.mem_cons_of_mem _ h)
    · have hdef : searchLeaves true limit (L :: rest) q ws
          = (q, { ws with m_SPTQueue := L :: rest }) := by
        simp only [searchLeaves, hlim, if_false]
      rw [hdef]
      exact ⟨fun h => h, ⟨fun v hv => Or.inl hv, fun v hv => hv⟩, fun v hv => Or.inl hv⟩

end PopLemmas

section PopTheorems

variable {D : Type} [LT D] [LE D] [DecidableRel (α := D) (· < ·)] [DecidableRel (α := D) (· ≤ ·)]

theorem Grows_refl (ws : WorkSpace D) : Grows ws ws :=
  ⟨fun _ hv => Or.inl hv, fun _ hv => hv⟩

theorem Grows_trans (a b c : WorkSpace D) (h1 : Grows a b) (h2 : Grows b c) : Grows a c := by
  refine ⟨?_, fun v hv => h2.2 v (h1.2 v hv)⟩
  intro v hv
  rcases h2.1 v hv with h | h
  · exact h1.1 v h
  · exact Or.inr (fun hin => h (h1.2 v hin))

theorem PopInv_propagate (idx : Index) (gnode : NodeDistPair D) (q : QueryResultSet D)
    (ws : WorkSpace D) (h : PopInv idx ws) :
    PopInv idx (propagate idx gnode q ws) ∧ Grows ws (propagate idx gnode q ws) := by
  obtain ⟨hn, hv, hid, hsuf⟩ := h
  obtain ⟨e1, e2, e3⟩ := expandNeighbors_pop q.distTo
    (upperBoundOf q.worstDist gnode.distance) (idx.m_pGraph.row gnode.node) ws true
  obtain ⟨f1, f2⟩ := e1 ⟨hn, hv⟩
  refine ⟨⟨f1, f2, ?_, ?_⟩, e2⟩
  · intro v hvq
    rcases e3 v hvq with h | ⟨h, h0⟩
    · exact hid v h
    · unfold Index.searchIds
      apply List.mem_append_right
      rw [List.mem_filter]
      exact ⟨row_subset_neighbours idx.m_pGraph gnode.node v h, by simpa using h0⟩
  · rw [propagate_pending]; exact hsuf

theorem PopInv_SearchTrees (idx : Index) (hskip : idx.m_pTrees.m_bSkipVisited = true)
    (q : QueryResultSet D) (ws : WorkSpace D) (limit : Nat) (h : PopInv idx ws) :
    PopInv idx (idx.m_pTrees.SearchTrees q ws limit).2 ∧
      Grows ws (idx.m_pTrees.SearchTrees q ws limit).2 := by
  obtain ⟨hn, hv, hid, reached, hsuf⟩ := h
  obtain ⟨used, s1, _⟩ := searchLeaves_spec true limit ws.m_SPTQueue q ws
  obtain ⟨e1, e2, e3⟩ := searchLeaves_pop limit ws.m_SPTQueue q ws
  obtain ⟨f1, f2⟩ := e1 ⟨hn, hv⟩
  unfold KDTree.SearchTrees
  rw [hskip]
  refine ⟨⟨f1, f2, ?_, reached ++ used, ?_⟩, e2⟩
  · intro v hvq
    rcases e3 v hvq with h | h
    · exact hid v h
    · unfold Index.searchIds
      apply List.mem_append_left
      rw [hsuf]
      exact List.mem_append_right _ h
  · rw [List.append_assoc, ← s1]; exact hsuf

theorem PopInv_step (idx : Index) (cd : Bool) (hskip : idx.m_pTrees.m_bSkipVisited = true)
    (q : QueryResultSet D) (ws : WorkSpace D) (gnode : NodeDistPair D)
    (rest : List (NodeDistPair D)) (h : PopInv idx ws)
    (hpop : takeBest (fun a b => decide (a.distance < b.distance)) ws.m_NGQueue
      = some (gnode, rest)) :
    PopInv idx (searchStep idx cd gnode q { ws with m_NGQueue := rest }).2.2 ∧
      Grows { ws with m_NGQueue := rest }
        (searchStep idx cd gnode q { ws with m_NGQueue := rest }).2.2 := by
  have hperm := (takeBest_perm _ _ _ _ hpop).map (fun p : NodeDistPair D => p.node)
  obtain ⟨hn, hv, hid, hsuf⟩ := h
  have hn2 : (gnode.node :: rest.map (fun p : NodeDistPair D => p.node)).Nodup :=
    hperm.nodup_iff.1 hn
  have hsub : ∀ v ∈ rest.map (fun p : NodeDistPair D => p.node), v ∈ ws.queued :=
    fun v hvr => hperm.mem_iff.2 (List.mem_cons_of_mem _ hvr)
  apply searchStep_preserves idx cd gnode q { ws with m_NGQueue := rest }
    (fun _ w => PopInv idx w ∧ Grows { ws with m_NGQueue := rest } w)
  · refine ⟨⟨(List.nodup_cons.1 hn2).2, ?_, ?_, hsuf⟩, Grows_refl _⟩
    · intro v hvr; exact hv v (hsub v hvr)
    · intro v hvr; exact hid v (hsub v hvr)
  · intro q1 hq1
    obtain ⟨p1, p2⟩ := PopInv_propagate idx gnode q1 _ hq1.1
    exact ⟨p1, p2⟩
  · intro q1 ws1 limit hq1
    obtain ⟨p1, p2⟩ := PopInv_SearchTrees idx hskip q1 ws1 limit hq1.1
    exact ⟨p1, Grows_trans _ _ _ hq1.2 p2⟩

theorem searchTrace_pops (idx : Index) (cd : Bool)
    (hskip : idx.m_pTrees.m_bSkipVisited = true) :
    ∀ (fuel : Nat) (q : QueryResultSet D) (ws : WorkSpace D)
      (r : List Int × QueryResultSet D × WorkSpace D),
      PopInv idx ws → searchTrace idx cd fuel q ws = some r →
      r.1.Nodup ∧ ∀ v ∈ r.1, (v ∈ ws.queued ∨ v ∉ ws.m_hashTable) ∧ v ∈ idx.searchIds := by
  intro fuel
  induction fuel with
  | zero =>
    intro q ws r hinv h
    simp only [searchTrace] at h
    split at h
    · cases h
      exact ⟨List.nodup_nil, fun v hv => absurd hv (List.not_mem_nil v)⟩
    · exact absurd h (by simp)
  | succ n ih =>
    intro q ws r hinv h
    simp only [searchTrace] at h
    split at h
    · cases h
      exact ⟨List.nodup_nil, fun v hv => absurd hv (List.not_mem_nil v)⟩
    · rename_i gnode rest hpop
      have hperm := (takeBest_perm _ _ _ _ hpop).map (fun p : NodeDistPair D => p.node)
      have hg : gnode.node ∈ ws.queued := hperm.mem_iff.2 (List.mem_cons_self _ _)
      have hn2 : (gnode.node :: rest.map (fun p : NodeDistPair D => p.node)).Nodup :=
        hperm.nodup_iff.1 hinv.1
      have hgrest : gnode.node ∉ rest.map (fun p : NodeDistPair D => p.node) :=
        (List.nodup_cons.1 hn2).1
      have hgvis : gnode.node ∈ ws.m_hashTable := hinv.2.1 _ hg
      have hgid : gnode.node ∈ idx.searchIds := hinv.2.2.1 _ hg
      obtain ⟨hinv2, hgrow⟩ := PopInv_step idx cd hskip q ws gnode rest hinv hpop
      split at h
      · cases htr : searchTrace idx cd n
            (searchStep idx cd gnode q { ws with m_NGQueue := rest }).2.1
            (searchStep idx cd gnode q { ws with m_NGQueue := rest }).2.2 with
        | none => rw [htr] at h; exact absurd h (by simp)
        | some p =>
          rw [htr] at h
          simp only [Option.map_some', Option.some.injEq] at h
          obtain ⟨i1, i2⟩ := ih _ _ p hinv2 htr
          rw [← h]
          have hfuture : ∀ v ∈ p.1, v ∈ rest.map (fun p : NodeDistPair D => p.node) ∨
              v ∉ ws.m_hashTable := by
            intro v hvp
            rcases (i2 v hvp).1 with hq | hq
            · exact hgrow.1 v hq
            · exact Or.inr (fun hin => hq (hgrow.2 v hin))
          constructor
          · rw [List.nodup_cons]
            refine ⟨?_, i1⟩
            intro hgp
            rcases hfuture _ hgp with hq | hq
            · exact hgrest hq
            · exact hq hgvis
          · intro v hvp
            simp only [List.mem_cons] at hvp
            rcases hvp with hvp | hvp
            · rw [hvp]; exact ⟨Or.inl hg, hgid⟩
            · refine ⟨?_, (i2 v hvp).2⟩
              rcases hfuture v hvp with hq | hq
              · exact Or.inl (hperm.mem_iff.2 (List.mem_cons_of_mem _ hq))
              · exact Or.inr hq
      · cases h
        refine ⟨List.nodup_singleton _, ?_⟩
        intro v hvp
        simp only [List.mem_singleton] at hvp
        rw [hvp]; exact ⟨Or.inl hg, hgid⟩

theorem PopInv_seed (idx : Index) (hskip : idx.m_pTrees.m_bSkipVisited = true)
    (q : QueryResultSet D) (maxCheck : Nat) :
    PopInv idx
      (idx.m_pTrees.SearchTrees q (idx.m_pTrees.InitSearchTrees (WorkSpace.Reset maxCheck))
        idx.m_iNumberOfInitialDynamicPivots).2 := by
  apply (PopInv_SearchTrees idx hskip q _ _ ?_).1
  refine ⟨?_, ?_, ?_, [], ?_⟩
  · simp [KDTree.InitSearchTrees, WorkSpace.Reset, WorkSpace.queued]
  · intro v hv
    simp [KDTree.InitSearchTrees, WorkSpace.Reset, WorkSpace.queued] at hv
  · intro v hv
    simp [KDTree.InitSearchTrees, WorkSpace.Reset, WorkSpace.queued] at hv
  · simp [KDTree.InitSearchTrees]

theorem nodup_length_le_card (pops ids : List Int) (hn : pops.Nodup)
    (hsub : ∀ v ∈ pops, v ∈ ids) : pops.length ≤ ids.toFinset.card := by
  rw [← List.toFinset_card_of_nodup hn]
  apply Finset.card_le_card
  intro v hv
  rw [List.mem_toFinset] at hv ⊢
  exact hsub v hv

theorem card_le_of_range (ids : List Int) (R : Nat) (h : ∀ v ∈ ids, 0 ≤ v ∧ v < (R : Int)) :
    ids.toFinset.card ≤ R := by
  have hsub : ids.toFinset ⊆ (Finset.range R).image (fun k : Nat => (k : Int)) := by
    intro v hv
    rw [List.mem_toFinset] at hv
    rw [Finset.mem_image]
    have := h v hv
    exact ⟨v.toNat, Finset.mem_range.2 (by omega), by omega⟩
  calc ids.toFinset.card ≤ ((Finset.range R).image (fun k : Nat => (k : Int))).card :=
        Finset.card_le_card hsub
    _ ≤ (Finset.range R).card := Finset.card_image_le
    _ = R := Finset.card_range R

/-- C13: when `SearchTrees` pushes only the ids it newly marks visited, the best-first loop
of the search (both variants), started as `Search` starts it on a reset workspace, comes to
an end; no id is popped twice, and the number of passes through the loop body is at most the
number of distinct ids (forest leaves and graph neighbours), hence at most `R` when all of
them lie in `[0, R)`. -/
theorem Search_iterations (idx : Index) (checkDeleted : Bool) (q : QueryResultSet D)
    (hskip : idx.m_pTrees.m_bSkipVisited = true) :
    ∃ bound : Nat, ∀ fuel, bound ≤ fuel →
      ∃ (pops : List Int) (r : QueryResultSet D × WorkSpace D),
        searchTrace idx checkDeleted fuel
          (idx.m_pTrees.SearchTrees q
            (idx.m_pTrees.InitSearchTrees (WorkSpace.Reset idx.m_iMaxCheck))
            idx.m_iNumberOfInitialDynamicPivots).1
          (idx.m_pTrees.SearchTrees q
            (idx.m_pTrees.InitSearchTrees (WorkSpace.Reset idx.m_iMaxCheck))
            idx.m_iNumberOfInitialDynamicPivots).2 = some (pops, r) ∧
        searchLoop idx checkDeleted fuel
          (idx.m_pTrees.SearchTrees q
            (idx.m_pTrees.InitSearchTrees (WorkSpace.Reset idx.m_iMaxCheck))
            idx.m_iNumberOfInitialDynamicPivots).1
          (idx.m_pTrees.SearchTrees q
            (idx.m_pTrees.InitSearchTrees (WorkSpace.Reset idx.m_iMaxCheck))
            idx.m_iNumberOfInitialDynamicPivots).2 = some r ∧
        pops.Nodup ∧ pops.length ≤ idx.idCount ∧
        (∀ R : Nat, (∀ v ∈ idx.searchIds, 0 ≤ v ∧ v < (R : Int)) → pops.length ≤ R) := by
  refine ⟨searchMeasure idx (idx.m_pTrees.SearchTrees q
    (idx.m_pTrees.InitSearchTrees (WorkSpace.Reset idx.m_iMaxCheck))
    idx.m_iNumberOfInitialDynamicPivots).2, ?_⟩
  intro fuel hfuel
  obtain ⟨r, hr⟩ := searchLoop_terminates idx checkDeleted fuel
    (idx.m_pTrees.SearchTrees q
      (idx.m_pTrees.InitSearchTrees (WorkSpace.Reset idx.m_iMaxCheck))
      idx.m_iNumberOfInitialDynamicPivots).1 _ hfuel
  have hsnd := searchTrace_snd idx checkDeleted fuel
    (idx.m_pTrees.SearchTrees q
      (idx.m_pTrees.InitSearchTrees (WorkSpace.Reset idx.m_iMaxCheck))
      idx.m_iNumberOfInitialDynamicPivots).1
    (idx.m_pTrees.SearchTrees q
      (idx.m_pTrees.InitSearchTrees (WorkSpace.Reset idx.m_iMaxCheck))
      idx.m_iNumberOfInitialDynamicPivots).2
  rw [hr] at hsnd
  cases htr : searchTrace idx checkDeleted fuel
      (idx.m_pTrees.SearchTrees q
        (idx.m_pTrees.InitSearchTrees (WorkSpace.Reset idx.m_iMaxCheck))
        idx.m_iNumberOfInitialDynamicPivots).1
      (idx.m_pTrees.SearchTrees q
        (idx.m_pTrees.InitSearchTrees (WorkSpace.Reset idx.m_iMaxCheck))
        idx.m_iNumberOfInitialDynamicPivots).2 with
  | none => rw [htr] at hsnd; exact absurd hsnd (by simp)
  | some p =>
    rw [htr] at hsnd
    simp only [Option.map_some', Option.some.injEq] at hsnd
    obtain ⟨i1, i2⟩ := searchTrace_pops idx checkDeleted hskip fuel _ _ p
      (PopInv_seed idx hskip q idx.m_iMaxCheck) htr
    have hlen := nodup_length_le_card p.1 idx.searchIds i1 (fun v hv => (i2 v hv).2)
    refine ⟨p.1, r, ?_, hr, i1, hlen, ?_⟩
    · rw [← hsnd]
    · intro R hR
      exact le_trans hlen (card_le_of_range idx.searchIds R hR)

end PopTheorems

/-- Witness for `Search_iterations`: `demoIndex`, whose forest passes over visited leaves. -/
theorem Search_iterations_witness :
    demoIndex.m_pTrees.m_bSkipVisited = true ∧
    ∃ bound : Nat, ∀ fuel, bound ≤ fuel →
      ∃ (pops : List Int) (r : QueryResultSet Nat × WorkSpace Nat),
        searchTrace demoIndex true fuel
          (demoIndex.m_pTrees.SearchTrees demoQuery
            (demoIndex.m_pTrees.InitSearchTrees (WorkSpace.Reset demoIndex.m_iMaxCheck))
            demoIndex.m_iNumberOfInitialDynamicPivots).1
          (demoIndex.m_pTrees.SearchTrees demoQuery
            (demoIndex.m_pTrees.InitSearchTrees (WorkSpace.Reset demoIndex.m_iMaxCheck))
            demoIndex.m_iNumberOfInitialDynamicPivots).2 = some (pops, r) ∧
        searchLoop demoIndex true fuel
          (demoIndex.m_pTrees.SearchTrees demoQuery
            (demoIndex.m_pTrees.InitSearchTrees (WorkSpace.Reset demoIndex.m_iMaxCheck))
            demoIndex.m_iNumberOfInitialDynamicPivots).1
          (demoIndex.m_pTrees.SearchTrees demoQuery
            (demoIndex.m_pTrees.InitSearchTrees (WorkSpace.Reset demoIndex.m_iMaxCheck))
            demoIndex.m_iNumberOfInitialDynamicPivots).2 = some r ∧
        pops.Nodup ∧ pops.length ≤ demoIndex.idCount ∧
        (∀ R : Nat, (∀ v ∈ demoIndex.searchIds, 0 ≤ v ∧ v < (R : Int)) → pops.length ≤ R) :=
  ⟨by decide, Search_iterations demoIndex true demoQuery (by decide)⟩


/-! ## Search: no id is returned twice -/

section HeldTheorems

variable {D : Type} [LT D] [LE D] [DecidableRel (α := D) (· < ·)] [DecidableRel (α := D) (· ≤ ·)]

end HeldTheorems

/-- The searches on `demoIndex` (id 0 tombstoned, rows at distances 0, 1, 2 from `demoQuery`,
two results asked for): the deletion-aware search returns ids 1 and 2, the raw search ids 0
and 1. -/
theorem SearchIndex_demo :
    (demoIndex.SearchIndex 10 demoQuery false).map (fun r => (r.1, r.2.ids))
      = some (ErrorCode.Success, [1, 2]) ∧
    (demoIndex.SearchIndex 10 demoQuery true).map (fun r => (r.1, r.2.ids))
      = some (ErrorCode.Success, [0, 1]) := by
  decide
end SPTAG
